import Mathlib

/-!
# NeuroForge dashboard (`src/app.js`) — verification of the state core

A shallow embedding of the persistence / normalization / XP-derivation core of
the NeuroForge dashboard.  Dynamic JavaScript values are modelled by the
inductive type `NF.Json` (JSON-parseable values: the only values that can flow
out of `JSON.parse` and into the purely data-manipulating core).  JavaScript
objects are ordered association lists, exactly as JS objects preserve insertion
order.  JS numbers are modelled by `NF.JNum`: a finite value (an exact `ℚ` —
the values the app itself stores are small decimal fractions, so binary-float
rounding is never observable; numeric literals beyond double range are kept
exact rather than saturated) or one of the two infinities, which `JSON.parse`
produces from overflow literals such as `1e999` and `Number(...)` produces from
the strings `"Infinity"` / `"-Infinity"`.  `NaN` is not JSON-representable and
is never stored into the state by any code path (every `Number(...)` result is
either guarded by `Number.isNaN` or defaulted by `|| 0` before being stored),
so it appears only as a *coercion result*, modelled by `Option JNum` with
`none` for `NaN`.  `JSON.stringify` writes every non-finite number as `null`;
the save/load round trip is modelled by `jsonRoundTrip`.
-/

set_option linter.unusedVariables false

namespace NF

/-- A JavaScript number as it can occur inside a parsed JSON value: a finite
value (exact, see the header note) or one of the two infinities (`JSON.parse`
yields `Infinity` / `-Infinity` for overflow literals such as `1e999`).  `NaN`
cannot result from `JSON.parse` and is never stored by the app (see header),
so it has no constructor here; as a coercion result it is `Option.none`. -/
inductive JNum where
  | fin (q : ℚ) : JNum
  | pinf : JNum
  | ninf : JNum
  deriving DecidableEq

/-- JS unary minus on a (non-`NaN`) number. -/
def jneg : JNum → JNum
  | .fin q => .fin (-q)
  | .pinf => .ninf
  | .ninf => .pinf

/-- A parsed JSON value (the result type of `JSON.parse`). -/
inductive Json where
  | null : Json
  | bool (b : Bool) : Json
  | num (x : JNum) : Json
  | str (s : String) : Json
  | arr (elems : List Json) : Json
  | obj (fields : List (String × Json)) : Json

/-- `typeof v === "number"` on a possibly-absent property value. -/
def isNumOpt : Option Json → Bool
  | some (.num _) => true
  | _ => false

/-- `typeof v === "boolean"` on a possibly-absent property value. -/
def isBoolOpt : Option Json → Bool
  | some (.bool _) => true
  | _ => false

/-- JS strict equality `v === s` against a string value (true exactly when
`v` is that string). -/
def jsStrEq : Option Json → String → Bool
  | some (.str s2), s => decide (s2 = s)
  | _, _ => false

/-- `v === true` (the "completed" test of the earned-XP invariant). -/
def isTrueOpt : Option Json → Bool
  | some (.bool true) => true
  | _ => false

/-- `Array.isArray(v)` on a possibly-absent value. -/
def isArrOpt : Option Json → Bool
  | some (.arr _) => true
  | _ => false

/-- Property lookup in an object field list (JS objects have unique keys, so
first-match lookup agrees with JS property access). -/
def getF : List (String × Json) → String → Option Json
  | [], _ => none
  | (k2, v) :: t, k => if k2 = k then some v else getF t k

/-- JS property assignment `o[k] = v`: replaces the value in place when the key
is present (keeping its position, as JS does), else appends the key at the end
(JS insertion order). -/
def setF (l : List (String × Json)) (k : String) (v : Json) : List (String × Json) :=
  if (getF l k).isSome then l.map (fun p => if p.1 = k then (k, v) else p)
  else l ++ [(k, v)]

/-- JS `delete o[k]`. -/
def delF (l : List (String × Json)) (k : String) : List (String × Json) :=
  l.filter (fun p => p.1 ≠ k)

/-- JS falsiness of a value (`0`, `""`, `null`, `false` are falsy; `±Infinity`
is truthy; `NaN` cannot occur inside a `Json` value). -/
def jFalsy : Json → Bool
  | .null => true
  | .bool b => !b
  | .num x => decide (x = .fin 0)
  | .str s => decide (s = "")
  | .arr _ => false
  | .obj _ => false

/-- Truthiness of a possibly-absent (`undefined`) value, as in `e.mood ? _ : _`. -/
def jsTruthyOpt : Option Json → Bool
  | none => false
  | some j => !(jFalsy j)

/-- JS property access `j.k` for the (non-index) keys used by the app:
objects look up their field, every other value yields `undefined` (`none`);
the keys accessed this way (`"baselines"`, `"notes"`, `"log"`, `"id"`,
`"completed"`, …) are never array/string index properties. -/
def getMember : Json → String → Option Json
  | .obj l, k => getF l k
  | _, _ => none

/-- JS object spread `{...v}`: objects contribute their own enumerable fields,
strings and arrays contribute their index properties, primitives contribute
nothing. -/
def spreadToObj : Json → List (String × Json)
  | .obj l => l
  | .arr xs => xs.enum.map (fun p => (toString p.1, p.2))
  | .str s => s.toList.enum.map (fun p => (toString p.1, Json.str p.2.toString))
  | _ => []

/-- `{...a, ...b}`: keys of `a` first (in order, values overridden by `b` where
present), then the keys of `b` not occurring in `a`, in order. -/
def ovr (b : List (String × Json)) (p : String × Json) : String × Json :=
  (p.1, (getF b p.1).getD p.2)

/-- JS object-literal merge `{...a, ...b}`. -/
def mergeObj (a b : List (String × Json)) : List (String × Json) :=
  a.map (ovr b) ++ b.filter (fun p => (getF a p.1).isNone)

/-- `{...(v || {})}` applied to a possibly-absent value, as in
`{...defaults, ...(parsed.baselines || {})}`. -/
def spreadOrEmpty : Option Json → List (String × Json)
  | none => []
  | some v => if jFalsy v then [] else spreadToObj v

/-! ## JS numeric coercion (`Number(...)`)

`Number(x)` is modelled by `Option JNum`, `none` standing for `NaN`.  The
string grammar implemented here is the JS `StrNumericLiteral` grammar:
optional surrounding JS whitespace (including the non-ASCII whitespace and
line-terminator characters JS trims, such as `U+00A0`), empty string ↦ 0,
signed decimal literals with optional fraction and exponent, the signed
`Infinity` literal (↦ `±Infinity`, a number, *not* `NaN`), and unsigned
`0x`/`0o`/`0b` radix literals. -/

/-- Accumulate a list of decimal digit characters into a natural number. -/
def digitsToNat (ds : List Char) : ℕ :=
  ds.foldl (fun n c => n * 10 + (c.toNat - 48)) 0

/-- Value of one digit character in radix `r` (`none` if not a digit of `r`). -/
def charDigit (r : ℕ) (c : Char) : Option ℕ :=
  let d : ℕ :=
    if c.isDigit then c.toNat - 48
    else if ('a' ≤ c && c ≤ 'z') then c.toNat - 87
    else if ('A' ≤ c && c ≤ 'Z') then c.toNat - 55
    else 99
  if d < r then some d else none

/-- Parse an unsigned radix-`r` digit string (must be nonempty, all digits). -/
def parseRadix (r : ℕ) (cs : List Char) : Option JNum :=
  if cs = [] then none
  else (cs.foldl (fun acc c => acc.bind (fun n => (charDigit r c).map (fun d => n * r + d)))
        (some 0)).map (fun n => JNum.fin (n : ℚ))

/-- Parse the exponent digits of a decimal literal and scale the mantissa. -/
def parseExpDigits (m : ℚ) (neg : Bool) (cs : List Char) : Option JNum :=
  if cs = [] || !cs.all Char.isDigit then none
  else some (.fin (if neg then m / 10 ^ digitsToNat cs else m * 10 ^ digitsToNat cs))

/-- Parse an optionally signed exponent part (after the `e`/`E`). -/
def parseExp (m : ℚ) : List Char → Option JNum
  | '+' :: r => parseExpDigits m false r
  | '-' :: r => parseExpDigits m true r
  | r => parseExpDigits m false r

/-- Parse an unsigned decimal string literal: the `Infinity` literal, or
`digits [. digits] [e[±]digits]` (also `.digits` forms); empty input is not a
literal. -/
def parseUnsignedDec (cs : List Char) : Option JNum :=
  if cs = "Infinity".toList then some .pinf
  else
  let ip := cs.takeWhile Char.isDigit
  let rest := cs.dropWhile Char.isDigit
  match rest with
  | [] => if ip = [] then none else some (.fin (digitsToNat ip : ℚ))
  | c :: rest2 =>
    if c = '.' then
      let fp := rest2.takeWhile Char.isDigit
      let rest3 := rest2.dropWhile Char.isDigit
      if ip = [] && fp = [] then none
      else
        let m : ℚ := (digitsToNat ip : ℚ) + (digitsToNat fp : ℚ) / 10 ^ fp.length
        match rest3 with
        | [] => some (.fin m)
        | e :: r4 => if e = 'e' || e = 'E' then parseExp m r4 else none
    else if c = 'e' || c = 'E' then
      if ip = [] then none else parseExp (digitsToNat ip : ℚ) rest2
    else none

/-- Parse an optionally signed decimal string literal. -/
def parseSignedDec : List Char → Option JNum
  | '+' :: r => parseUnsignedDec r
  | '-' :: r => (parseUnsignedDec r).map jneg
  | r => parseUnsignedDec r

/-- The whitespace `Number(string)` trims before parsing (`StrWhiteSpaceChar`):
TAB, LF, VT, FF, CR, space, NBSP, the Unicode space separators, the line and
paragraph separators, and the BOM. -/
def jsWhitespaceChar (c : Char) : Bool :=
  c.toNat = 0x9 || c.toNat = 0xA || c.toNat = 0xB || c.toNat = 0xC ||
  c.toNat = 0xD || c.toNat = 0x20 || c.toNat = 0xA0 || c.toNat = 0x1680 ||
  (0x2000 ≤ c.toNat && c.toNat ≤ 0x200A) ||
  c.toNat = 0x2028 || c.toNat = 0x2029 || c.toNat = 0x202F ||
  c.toNat = 0x205F || c.toNat = 0x3000 || c.toNat = 0xFEFF

/-- Strip leading and trailing JS whitespace from a character list (the
trimming `Number(string)` performs before parsing). -/
def trimWs (cs : List Char) : List Char :=
  ((cs.dropWhile jsWhitespaceChar).reverse.dropWhile jsWhitespaceChar).reverse

/-- JS `Number(s)` for a string `s` (`none` = `NaN`; note that
`Number("Infinity")` is the *number* `Infinity`, not `NaN`). -/
def jsStrToNum (s : String) : Option JNum :=
  match trimWs s.toList with
  | [] => some (.fin 0)
  | '0' :: x :: rest =>
    if x = 'x' || x = 'X' then parseRadix 16 rest
    else if x = 'b' || x = 'B' then parseRadix 2 rest
    else if x = 'o' || x = 'O' then parseRadix 8 rest
    else parseSignedDec ('0' :: x :: rest)
  | cs => parseSignedDec cs

/-- JS `Number(v)` for a parsed JSON value.  A one-element array coerces like
its single element (both go through the same string form), except booleans
(`String(true) = "true"` is not numeric); an array of two or more elements
stringifies with a comma, hence `NaN`; objects stringify as
`"[object Object]"`, hence `NaN`. -/
def jsNumber : Json → Option JNum
  | .null => some (.fin 0)
  | .bool b => some (.fin (if b then 1 else 0))
  | .num x => some x
  | .str s => jsStrToNum s
  | .arr [] => some (.fin 0)
  | .arr [.bool _] => none
  | .arr [x] => jsNumber x
  | .arr _ => none
  | .obj _ => none

/-- `Number(v) || 0` on a possibly-absent property value (`Number(undefined)`
is `NaN`, and `|| 0` turns both `NaN` and `0` into `0`; `±Infinity` is truthy
and kept). -/
def jsNumOr0 : Option Json → JNum
  | none => .fin 0
  | some j => (jsNumber j).getD (.fin 0)

/-! ## JS string coercion (for template literals and `join`) -/

/-- Least `k` with `d ∣ 10 ^ k`, searched up to 64 (present exactly when the
decimal expansion of a fraction with denominator `d` terminates; every number
the app stores is a small decimal literal, so 64 is never a real bound). -/
def decExp (d : ℕ) : Option ℕ :=
  (List.range 64).find? (fun k => 10 ^ k % d = 0)

/-- Left-pad a string with zeros to length `k`. -/
def padZeros (s : String) (k : ℕ) : String :=
  String.mk (List.replicate (k - s.length) '0') ++ s

/-- JS number-to-string: integers render without a point, terminating decimals
with their (minimal) digits.  (JS renders a non-terminating binary float by
its shortest round-tripping decimal; such values cannot arise from the decimal
literals this app stores, and the fallback branch renders `num/den`.) -/
def ratToStr (q : ℚ) : String :=
  if q.den = 1 then toString q.num
  else
    match decExp q.den with
    | some k =>
      let n := (|q| * 10 ^ k).num.toNat
      (if q < 0 then "-" else "") ++ toString (n / 10 ^ k) ++ "." ++
        padZeros (toString (n % 10 ^ k)) k
    | none => toString q.num ++ "/" ++ toString q.den

/-- JS number-to-string on a (non-`NaN`) number value. -/
def jnumToStr : JNum → String
  | .fin q => ratToStr q
  | .pinf => "Infinity"
  | .ninf => "-Infinity"

mutual
/-- JS `String(v)` / template-literal interpolation of a value. -/
def jsToStr : Json → String
  | .null => "null"
  | .bool b => if b then "true" else "false"
  | .num x => jnumToStr x
  | .str s => s
  | .arr xs => jsJoinComma xs
  | .obj _ => "[object Object]"
/-- `Array.prototype.toString` = `join(",")`; `null` and `undefined` elements
render as empty. -/
def jsJoinComma : List Json → String
  | [] => ""
  | [.null] => ""
  | [x] => jsToStr x
  | .null :: xs => "," ++ jsJoinComma xs
  | x :: xs => jsToStr x ++ "," ++ jsJoinComma xs
end

/-- Interpolation of a possibly-absent value (`String(undefined)`). -/
def jsToStrOpt : Option Json → String
  | none => "undefined"
  | some j => jsToStr j

/-- `arr.join(sep)` over already-stringified elements. -/
def joinSep (sep : String) : List String → String
  | [] => ""
  | h :: t => t.foldl (fun acc x => acc ++ sep ++ x) h

/-! ## 01) Constants + default state (`src/app.js` lines 35–66) -/

/-- `DEFAULT_STATE.baselines`. -/
def defaultBaselines : List (String × Json) :=
  [("Focus & Attention", .num (.fin 6)),
   ("Working Memory", .num (.fin (17 / 2))),
   ("Logic & Reasoning", .num (.fin 6)),
   ("Comprehension & Synthesis", .num (.fin (15 / 2))),
   ("Vocabulary", .num (.fin 8)),
   ("Quick Math", .num (.fin (9 / 2))),
   ("Visualization", .num (.fin 8)),
   ("Spatial Awareness", .num (.fin 7)),
   ("Pattern Recognition", .num (.fin 9)),
   ("Decision-Making Under Uncertainty", .num (.fin (17 / 2)))]

/-- `DEFAULT_STATE.notes`. -/
def defaultNotes : List (String × Json) :=
  [("Focus & Attention", .str "Rotation ≠ hierarchy change. Guard against assumption drift."),
   ("Working Memory", .str "Strong filter under interference."),
   ("Logic & Reasoning", .str "Needs formal rigor (syllogism overlap trap)."),
   ("Comprehension & Synthesis", .str "Good gist; add why/how for depth."),
   ("Vocabulary", .str "Solid recognition; we’ll test active use later."),
   ("Quick Math", .str "Accuracy under pressure is the XP farm."),
   ("Visualization", .str "Strong mental imagery; keep sharpening transformations."),
   ("Spatial Awareness", .str "Good directional reasoning; confidence wobble only."),
   ("Pattern Recognition", .str "Standout strength. Use it everywhere."),
   ("Decision-Making Under Uncertainty", .str "Good expected-value instincts.")]

/-- `DEFAULT_STATE` as an ordered field list.  `structuredCloneSafe`, i.e.
`JSON.parse(JSON.stringify(x))` (modelled in general by `jsonRoundTrip`
below), is the identity on data whose numbers are all finite, and in
particular on this constant — every default value is a small decimal
literal. -/
def defaultFields : List (String × Json) :=
  [("baselines", .obj defaultBaselines),
   ("notes", .obj defaultNotes),
   ("todayFocus", .str "—"),
   ("log", .arr [])]

/-- The built-in default state. -/
def DEFAULT_STATE : Json := .obj defaultFields

/-- The order on (non-`NaN`) JS numbers, as a boolean `a <= b`; the
comparisons `Math.min`/`Math.max` perform. -/
def jleB : JNum → JNum → Bool
  | .ninf, _ => true
  | _, .pinf => true
  | .pinf, _ => false
  | _, .ninf => false
  | .fin a, .fin b => decide (a ≤ b)

/-- `Math.min(a, b)` on non-`NaN` numbers. -/
def jmin (a b : JNum) : JNum := if jleB a b then a else b

/-- `Math.max(a, b)` on non-`NaN` numbers. -/
def jmax (a b : JNum) : JNum := if jleB a b then b else a

/-- `clamp(n, min, max) = Math.max(min, Math.min(max, n))`.  Every call site
passes a non-`NaN` `n` (each is guarded by `Number.isNaN`); `±Infinity` is
clamped to the corresponding bound. -/
def clamp (n lo hi : JNum) : JNum := jmax lo (jmin hi n)

/-- `formatScore(n)`: integers render without a decimal point
(`Number.isInteger`, false for `±Infinity`), anything else via `toFixed(1)`
(`Infinity.toFixed(1) = "Infinity"`).  `n` is `Number(...)` material, so the
argument is `Option JNum` with `none` for `NaN`
(`String(NaN.toFixed(1)) = "NaN"`). -/
def formatScore : Option JNum → String
  | none => "NaN"
  | some .pinf => "Infinity"
  | some .ninf => "-Infinity"
  | some (.fin q) =>
    if q.den = 1 then toString q.num
    else
      let m : ℤ := if 0 ≤ q then ⌊q * 10 + 1 / 2⌋ else -⌊-q * 10 + 1 / 2⌋
      (if m < 0 then "-" else "") ++ toString (m.natAbs / 10) ++ "." ++ toString (m.natAbs % 10)

/-! ## 02) `loadState` (lines 83–130): merge + per-entry migration -/

/-- Migration step, lines 102–104:
`if (typeof out.xpPotential !== "number" && typeof out.xp === "number")
 out.xpPotential = out.xp`. -/
def migrateXp (o : List (String × Json)) : List (String × Json) :=
  match getF o "xpPotential", getF o "xp" with
  | some (.num _), _ => o
  | _, some (.num q) => setF o "xpPotential" (.num q)
  | _, _ => o

/-- Migration step, lines 106–108:
`if (typeof out.completed !== "boolean") out.completed = true`. -/
def defaultCompleted (o : List (String × Json)) : List (String × Json) :=
  match getF o "completed" with
  | some (.bool _) => o
  | _ => setF o "completed" (.bool true)

/-- Migration step, line 112:
`out.xpPotential = typeof out.xpPotential === "number" ? out.xpPotential : 0`. -/
def coerceXp (o : List (String × Json)) : List (String × Json) :=
  match getF o "xpPotential" with
  | some (.num _) => o
  | _ => setF o "xpPotential" (.num (.fin 0))

/-- `out.k ??= ""` (lines 114–121): assign `""` exactly when the property is
absent (`undefined`) or `null`. -/
def coalesce (o : List (String × Json)) (k : String) : List (String × Json) :=
  match getF o k with
  | none => setF o k (.str "")
  | some .null => setF o k (.str "")
  | some _ => o

/-- The keys given the `""` default by lines 114–121, in source order. -/
def emptyDefaultKeys : List String :=
  ["mood", "sleepHrs", "difficulty", "liked", "challengeText", "answerText", "insightText"]

/-- The sequence of `out.k ??= ""` statements, one per key, in order. -/
def coalesceAll (o : List (String × Json)) (ks : List String) : List (String × Json) :=
  ks.foldl coalesce o

/-- The body of the `st.log.map(e => ...)` callback (lines 99–124) on the
spread copy `{...e}`. -/
def normalizeEntryFields (o : List (String × Json)) : List (String × Json) :=
  coalesceAll (coerceXp (delF (defaultCompleted (migrateXp o)) "xp")) emptyDefaultKeys

/-- One log entry through the migration callback (`const out = {...e}; ...`). -/
def normalizeEntry (e : Json) : Json :=
  .obj (normalizeEntryFields (spreadToObj e))

/-- The merge literal of lines 90–96:
`{...DEFAULT_STATE, ...parsed, baselines: {...}, notes: {...}, log: ...}`.
(Explicit keys that already occur in the spread keep their position, exactly
as `setF` does.) -/
def mergeState (parsed : Json) : List (String × Json) :=
  setF (setF (setF (mergeObj defaultFields (spreadToObj parsed))
    "baselines" (.obj (mergeObj defaultBaselines (spreadOrEmpty (getMember parsed "baselines")))))
    "notes" (.obj (mergeObj defaultNotes (spreadOrEmpty (getMember parsed "notes")))))
    "log" (match getMember parsed "log" with
           | some (.arr xs) => .arr xs
           | _ => .arr [])

/-- The raw merged log value as a list. -/
def mergeLogList (parsed : Json) : List Json :=
  match getMember parsed "log" with
  | some (.arr xs) => xs
  | _ => []

/-- `st.log = st.log.map(...)`; the merge guarantees `st.log` is an array
(the fallthrough branch is unreachable). -/
def normalizeLog : Option Json → Json
  | some (.arr xs) => .arr (xs.map normalizeEntry)
  | _ => .arr []

/-- `loadState` on a successfully parsed blob.  `JSON.parse` yields `null`
exactly for the text `"null"`; in that case `parsed.baselines` raises a
`TypeError` which the surrounding `try`/`catch` turns into the default
state. -/
def loadStateFromParsed (parsed : Json) : Json :=
  match parsed with
  | .null => DEFAULT_STATE
  | _ =>
    let st := mergeState parsed
    .obj (setF st "log" (normalizeLog (getF st "log")))

/-- The raw persisted input: absent (no stored value / empty string),
unparsable (`JSON.parse` throws), or parsed to a JSON value. -/
inductive RawInput where
  | absent : RawInput
  | unparsable : RawInput
  | parsed (j : Json) : RawInput

/-- `loadState()` (lines 83–130).  Total by construction: every raw input,
including malformed ones, produces a state (the `try`/`catch` fallback is the
`absent`/`unparsable`/`null` arm). -/
def loadState : RawInput → Json
  | .absent => DEFAULT_STATE
  | .unparsable => DEFAULT_STATE
  | .parsed p => loadStateFromParsed p

/-! ## 03) Derived values (lines 180–185) -/

/-- Earned XP of one entry inside `calcXP`:
`e.completed ? (Number(e.xpPotential) || 0) : 0` (never `NaN`, by the `|| 0`). -/
def entryEarned (e : Json) : JNum :=
  if jsTruthyOpt (getMember e "completed") then jsNumOr0 (getMember e "xpPotential") else .fin 0

/-- JS `+` on numbers (`none` = `NaN`): `NaN` propagates, opposite infinities
give `NaN`, an infinity absorbs finite values. -/
def oAdd : Option JNum → Option JNum → Option JNum
  | none, _ => none
  | _, none => none
  | some (.fin a), some (.fin b) => some (.fin (a + b))
  | some (.fin _), some .pinf => some .pinf
  | some (.fin _), some .ninf => some .ninf
  | some .pinf, some (.fin _) => some .pinf
  | some .pinf, some .pinf => some .pinf
  | some .pinf, some .ninf => none
  | some .ninf, some (.fin _) => some .ninf
  | some .ninf, some .ninf => some .ninf
  | some .ninf, some .pinf => none

/-- `calcXP()` = `state.log.reduce((sum, e) => sum + earned, 0)` (JS `+`). -/
def calcXP (log : List Json) : Option JNum :=
  log.foldl (fun sum e => oAdd sum (some (entryEarned e))) (some (.fin 0))

/-- The JS sum (left fold of JS `+` starting from `0`) of a list of numbers. -/
def jsSum (xs : List JNum) : Option JNum :=
  xs.foldl (fun s x => oAdd s (some x)) (some (.fin 0))

/-! ## `pickRandom` (lines 140–150)

`Math.random()` is a source of values in `[0, 1)`; the call sequence is
modelled by a function from draw index to such a value. -/

/-- A stream of `Math.random()` results. -/
def RandSrc : Type := ℕ → {q : ℚ // 0 ≤ q ∧ q < 1}

/-- The `while (out.length < count && a.length)` loop of `pickRandom`: draw a
random index (`Math.floor(Math.random() * a.length)`, in range because
`Math.random() ∈ [0, 1)`), `splice` it out of `a`, push it onto `out`. -/
def pickRandomGo {α : Type} (rnd : RandSrc) (t : ℕ) (a out : List α) (count : ℕ) : List α :=
  if h : out.length < count ∧ 0 < a.length then
    pickRandomGo rnd (t + 1)
      (a.eraseIdx (Int.floor ((rnd t).1 * (a.length : ℚ))).toNat)
      (out ++ [a.get ⟨(Int.floor ((rnd t).1 * (a.length : ℚ))).toNat, by
        have hlenq : (0 : ℚ) < (a.length : ℚ) := by exact_mod_cast h.2
        have hmul : (rnd t).1 * (a.length : ℚ) < (a.length : ℚ) := by
          calc (rnd t).1 * (a.length : ℚ) < 1 * (a.length : ℚ) :=
                mul_lt_mul_of_pos_right (rnd t).2.2 hlenq
            _ = (a.length : ℚ) := one_mul _
        have hfl : Int.floor ((rnd t).1 * (a.length : ℚ)) < (a.length : ℤ) :=
          Int.floor_lt.mpr (by exact_mod_cast hmul)
        have hnn : 0 ≤ Int.floor ((rnd t).1 * (a.length : ℚ)) :=
          Int.floor_nonneg.mpr (mul_nonneg (rnd t).2.1 (le_of_lt hlenq))
        omega⟩])
      count
  else out
termination_by count - out.length
decreasing_by simp only [List.length_append, List.length_cons, List.length_nil]; omega

/-- `pickRandom(arr, count)` (lines 140–150). -/
def pickRandom {α : Type} (rnd : RandSrc) (arr : List α) (count : ℕ) : List α :=
  pickRandomGo rnd 0 arr [] count

/-- A concrete random source (always returns 0), used to exercise
`pickRandom` on concrete inputs. -/
def zeroRand : RandSrc := fun _ => ⟨0, by norm_num⟩

/-! ## 06) Core actions (lines 431–546) -/

/-- The entry object literal of `addLogEntry` (lines 432–447).  The
`xpPotential` argument is always one of the numeric literals 10/18/25/6, for
which `Number(xpPotential || 0)` is the argument itself. -/
def mkEntry (id time title : String) (categories : List String) (xpPotential : ℚ) : Json :=
  .obj [("id", .str id), ("time", .str time), ("title", .str title),
        ("categories", .arr (categories.map .str)),
        ("xpPotential", .num (.fin xpPotential)),
        ("completed", .bool false),
        ("mood", .str ""), ("sleepHrs", .str ""), ("difficulty", .str ""),
        ("liked", .str ""), ("challengeText", .str ""), ("answerText", .str ""),
        ("insightText", .str "")]

/-- `addLogEntry` (lines 431–451): `state.log.unshift(entry)`.  The fresh
`crypto.randomUUID()` and `nowStamp()` are inputs from the environment. -/
def addLogEntry (log : List Json) (id time title : String) (categories : List String)
    (xpPotential : ℚ) : List Json :=
  mkEntry id time title categories xpPotential :: log

/-- `runSession(kind, count)` (lines 453–464): result is
`(todayFocus, log)` after the action. -/
def runSession (baselines : List (String × Json)) (log : List Json) (kind : String)
    (count : ℕ) (rnd : RandSrc) (id time : String) : String × List Json :=
  let categories := baselines.map Prod.fst
  let pick := pickRandom rnd categories count
  let todayFocus := joinSep " • " pick
  let xpPotential : ℚ :=
    if kind = "Daily Neural Roll" then 10
    else if kind = "Tri-Skill Sprint" then 18
    else 25
  (todayFocus, addLogEntry log id time kind pick xpPotential)

/-- Property assignment `state.baselines[category] = score` on the current
baselines value (an object after any reachable history; assignment to a
primitive is a silent no-op in non-strict mode). -/
def jsSetMember (j : Json) (k : String) (v : Json) : Json :=
  match j with
  | .obj l => .obj (setF l k v)
  | other => other

/-- Assignment to a field of a log entry (entries are objects). -/
def jsSetEntry (e : Json) (k : String) (v : Json) : Json :=
  match e with
  | .obj l => .obj (setF l k v)
  | other => other

/-- The `onConfirm` body of `quickRetest(category)` (lines 491–513), acting on
`(baselines, notes, log)`; `valTxt` is the text of the score input
(`Number(input.value)`), `overwrite` the checkbox.  `notes` is passed through
untouched, as the handler never references it. -/
def quickRetestConfirm (baselines notes : Json) (log : List Json) (category : String)
    (valTxt : String) (overwrite : Bool) (id time : String) : Json × Json × List Json :=
  match jsStrToNum valTxt with
  | none => (baselines, notes, log)
  | some val =>
    let score := clamp val (.fin 0) (.fin 10)
    let old : Option JNum :=
      match getMember baselines category with
      | none => none
      | some j => jsNumber j
    let baselines2 := if overwrite then jsSetMember baselines category (.num score) else baselines
    let log2 := addLogEntry log id time "Re-test" [category] 6
    let msg := "Re-test score: " ++ formatScore (some score) ++ " / 10 (was " ++
      formatScore old ++ "). " ++
      (if overwrite then "Baseline updated." else "Baseline unchanged.")
    let log3 :=
      match log2 with
      | e :: t => jsSetEntry (jsSetEntry e "answerText" (.str msg)) "completed" (.bool true) :: t
      | [] => []
    (baselines2, notes, log3)

/-- `Object.entries(v)`: `null` throws (`none`); objects list their fields,
arrays and strings their index properties, other primitives nothing. -/
def jsEntries : Json → Option (List (String × Json))
  | .null => none
  | .obj l => some l
  | .arr xs => some (xs.enum.map (fun p => (toString p.1, p.2)))
  | .str s => some (s.toList.enum.map (fun p => (toString p.1, Json.str p.2.toString)))
  | _ => some []

/-- Write the clamped numbers back over the entries of the parsed value
(`obj[k] = clamp(num, 0, 10)` for every entry; reached only when every entry
coerced to a number). -/
def clampEntries : Json → Json
  | .obj l => .obj (l.map (fun p =>
      (p.1, Json.num (clamp ((jsNumber p.2).getD (.fin 0)) (.fin 0) (.fin 10)))))
  | .arr xs => .arr (xs.map (fun v =>
      Json.num (clamp ((jsNumber v).getD (.fin 0)) (.fin 0) (.fin 10))))
  | other => other

/-- The `onConfirm` body of `editBaselines` (lines 527–544) on the parse
result of the textarea (`none` = `JSON.parse` threw).  Returns the new
baselines value and whether the error path (`alert`) was taken; on any error
the baselines are returned untouched. -/
def editBaselinesApply (baselines : Json) (parsedTxt : Option Json) : Json × Bool :=
  match parsedTxt with
  | none => (baselines, true)
  | some obj =>
    match jsEntries obj with
    | none => (baselines, true)
    | some ents =>
      if ents.all (fun p => (jsNumber p.2).isSome) then (clampEntries obj, false)
      else (baselines, true)

/-! ## 08) Session-log actions (lines 653–755) -/

/-- `handleCompleteToggle` (lines 744–755): find the entry whose `id`
matches, set its `completed` to the checkbox value; no entry → no change. -/
def setCompleted (log : List Json) (id : String) (c : Bool) : List Json :=
  match log with
  | [] => []
  | e :: t =>
    if jsStrEq (getMember e "id") id then jsSetEntry e "completed" (.bool c) :: t
    else e :: setCompleted t id c

/-! ## `entryToClipboardText` (lines 237–257) -/

/-- `(e.categories || []).join(", ")`; `none` models the `TypeError` raised
when `categories` is a truthy non-array. -/
def catsJoin : Option Json → Option String
  | none => some ""
  | some (.arr xs) => some (joinSep ", " (xs.map (fun v =>
      match v with
      | .null => ""
      | j => jsToStr j)))
  | some j => if jFalsy j then some "" else none

/-- The `lines` array of `entryToClipboardText` before `.filter(Boolean)`. -/
def entryLineList (e : Json) : Option (List String) :=
  match catsJoin (getMember e "categories") with
  | none => none
  | some cats =>
    let earned : JNum :=
      if jsTruthyOpt (getMember e "completed") then jsNumOr0 (getMember e "xpPotential")
      else .fin 0
    some
      [jsToStrOpt (getMember e "title"),
       jsToStrOpt (getMember e "time"),
       "Rolled: " ++ cats,
       "Completed: " ++ (if jsTruthyOpt (getMember e "completed") then "Yes" else "No"),
       "XP: " ++ jnumToStr earned ++ " / " ++ jnumToStr (jsNumOr0 (getMember e "xpPotential")),
       if jsTruthyOpt (getMember e "mood")
         then "Mood: " ++ jsToStrOpt (getMember e "mood") else "",
       if jsStrEq (getMember e "sleepHrs") ""
         then "" else "Sleep: " ++ jsToStrOpt (getMember e "sleepHrs") ++ " hrs",
       if jsTruthyOpt (getMember e "difficulty")
         then "Difficulty: " ++ jsToStrOpt (getMember e "difficulty") else "",
       if jsTruthyOpt (getMember e "liked")
         then "Enjoyed: " ++ jsToStrOpt (getMember e "liked") else "",
       if jsTruthyOpt (getMember e "challengeText")
         then "\nChallenge:\n" ++ jsToStrOpt (getMember e "challengeText") else "",
       if jsTruthyOpt (getMember e "answerText")
         then "\nAnswers / Notes:\n" ++ jsToStrOpt (getMember e "answerText") else "",
       if jsTruthyOpt (getMember e "insightText")
         then "\nInsights:\n" ++ jsToStrOpt (getMember e "insightText") else ""]

/-- `entryToClipboardText(e)` = `lines.filter(Boolean).join("\n")` (an empty
string is the only falsy string). -/
def entryToClipboardText (e : Json) : Option String :=
  (entryLineList e).map (fun lines => joinSep "\n" (lines.filter (fun l => l ≠ "")))

/-! ## The save/load serialization round trip

`saveState` writes `JSON.stringify(state)` and the next `loadState` reads it
back with `JSON.parse`.  On finite data this round trip is the identity, but
`JSON.stringify` serializes every non-finite number (`Infinity`, `-Infinity`)
as `null`. -/

mutual
/-- `JSON.parse(JSON.stringify(v))` for a value already of JSON shape: the
identity except that non-finite numbers become `null`. -/
def jsonRoundTrip : Json → Json
  | .null => .null
  | .bool b => .bool b
  | .num (.fin q) => .num (.fin q)
  | .num _ => .null
  | .str s => .str s
  | .arr xs => .arr (jsonRoundTripL xs)
  | .obj l => .obj (jsonRoundTripF l)
/-- `jsonRoundTrip` on the elements of an array. -/
def jsonRoundTripL : List Json → List Json
  | [] => []
  | x :: t => jsonRoundTrip x :: jsonRoundTripL t
/-- `jsonRoundTrip` on the fields of an object. -/
def jsonRoundTripF : List (String × Json) → List (String × Json)
  | [] => []
  | (k, v) :: t => (k, jsonRoundTrip v) :: jsonRoundTripF t
end

mutual
/-- Every number occurring anywhere inside the value is finite (the domain on
which `jsonRoundTrip` is the identity). -/
def allFinite : Json → Bool
  | .null => true
  | .bool _ => true
  | .num (.fin _) => true
  | .num _ => false
  | .str _ => true
  | .arr xs => allFiniteL xs
  | .obj l => allFiniteF l
/-- `allFinite` over the elements of an array. -/
def allFiniteL : List Json → Bool
  | [] => true
  | x :: t => allFinite x && allFiniteL t
/-- `allFinite` over the fields of an object. -/
def allFiniteF : List (String × Json) → Bool
  | [] => true
  | (_, v) :: t => allFinite v && allFiniteF t
end

/-- A raw persisted input all of whose numbers are finite. -/
def rawFinite : RawInput → Bool
  | .absent => true
  | .unparsable => true
  | .parsed j => allFinite j

/-! ## Lemmas: lookup, assignment, deletion, merge -/

theorem getF_cons (x : String × Json) (t : List (String × Json)) (k : String) :
    getF (x :: t) k = if x.1 = k then some x.2 else getF t k := by
  obtain ⟨a, b⟩ := x; rfl

theorem getF_append_some {l1 : List (String × Json)} (l2 : List (String × Json))
    {k : String} {v : Json} (h : getF l1 k = some v) : getF (l1 ++ l2) k = some v := by
  induction l1 with
  | nil => simp [getF] at h
  | cons p t ih =>
    by_cases hk : p.1 = k
    · rw [getF_cons, if_pos hk] at h
      rw [List.cons_append, getF_cons, if_pos hk]
      exact h
    · rw [getF_cons, if_neg hk] at h
      rw [List.cons_append, getF_cons, if_neg hk]
      exact ih h

theorem getF_append_none {l1 : List (String × Json)} (l2 : List (String × Json))
    {k : String} (h : getF l1 k = none) : getF (l1 ++ l2) k = getF l2 k := by
  induction l1 with
  | nil => rfl
  | cons p t ih =>
    by_cases hk : p.1 = k
    · rw [getF_cons, if_pos hk] at h; cases h
    · rw [getF_cons, if_neg hk] at h
      rw [List.cons_append, getF_cons, if_neg hk]
      exact ih h

theorem getF_eq_none_iff (l : List (String × Json)) (k : String) :
    getF l k = none ↔ ∀ p ∈ l, p.1 ≠ k := by
  induction l with
  | nil => simp [getF]
  | cons q t ih =>
    by_cases hk : q.1 = k
    · rw [getF_cons, if_pos hk]
      constructor
      · intro h; cases h
      · intro h; exact absurd hk (h q (List.mem_cons_self q t))
    · rw [getF_cons, if_neg hk, ih]
      constructor
      · intro h p hp
        rcases List.mem_cons.mp hp with rfl | hp2
        · exact hk
        · exact h p hp2
      · intro h p hp
        exact h p (List.mem_cons_of_mem _ hp)

theorem getF_isSome_of_mem {l : List (String × Json)} {p : String × Json}
    (hp : p ∈ l) : (getF l p.1).isSome := by
  induction l with
  | nil => cases hp
  | cons q t ih =>
    rcases List.mem_cons.mp hp with h | h
    · subst h; simp [getF_cons]
    · by_cases hk : q.1 = p.1
      · simp [getF_cons, hk]
      · rw [getF_cons, if_neg hk]
        exact ih h

theorem getF_map_of_mem {l : List (String × Json)} {g : String × Json → String × Json}
    (hg : ∀ p, (g p).1 = p.1) (hnd : (l.map Prod.fst).Nodup)
    {p : String × Json} (hp : p ∈ l) : getF (l.map g) p.1 = some (g p).2 := by
  induction l with
  | nil => cases hp
  | cons q t ih =>
    rw [List.map_cons, List.nodup_cons] at hnd
    rcases List.mem_cons.mp hp with h | h
    · subst h
      rw [List.map_cons, getF_cons, if_pos (hg p)]
    · have hq : q.1 ≠ p.1 := by
        intro hcontra
        exact hnd.1 (hcontra ▸ List.mem_map_of_mem Prod.fst h)
      rw [List.map_cons, getF_cons, hg q, if_neg hq]
      exact ih hnd.2 h

theorem getF_map_isSome (l : List (String × Json)) (g : String × Json → String × Json)
    (hg : ∀ p, (g p).1 = p.1) (k : String) :
    (getF (l.map g) k).isSome = (getF l k).isSome := by
  induction l with
  | nil => rfl
  | cons q t ih =>
    by_cases hk : q.1 = k
    · rw [List.map_cons, getF_cons, hg q, if_pos hk, getF_cons, if_pos hk]
      rfl
    · rw [List.map_cons, getF_cons, hg q, if_neg hk, getF_cons, if_neg hk]
      exact ih

/-- The two branch equations of `setF`. -/
theorem setF_pos (l : List (String × Json)) (k : String) (v : Json)
    (h : (getF l k).isSome) :
    setF l k v = l.map (fun p => if p.1 = k then (k, v) else p) := by
  unfold setF; rw [if_pos h]

theorem setF_neg (l : List (String × Json)) (k : String) (v : Json)
    (h : getF l k = none) : setF l k v = l ++ [(k, v)] := by
  unfold setF; rw [if_neg (by rw [h]; simp)]

theorem getF_map_replace (l : List (String × Json)) (k : String) (v : Json) :
    getF (l.map (fun p => if p.1 = k then (k, v) else p)) k =
      (getF l k).map (fun _ => v) := by
  induction l with
  | nil => rfl
  | cons q t ih =>
    by_cases hk : q.1 = k
    · simp [List.map_cons, getF_cons, hk]
    · simp only [List.map_cons, if_neg hk, getF_cons, if_neg hk]
      exact ih

theorem getF_map_replace_other (l : List (String × Json)) (k k2 : String) (v : Json)
    (hne : k2 ≠ k) :
    getF (l.map (fun p => if p.1 = k then (k, v) else p)) k2 = getF l k2 := by
  induction l with
  | nil => rfl
  | cons q t ih =>
    by_cases hk : q.1 = k
    · have h1 : k ≠ k2 := fun h => hne h.symm
      have h2 : q.1 ≠ k2 := by rw [hk]; exact h1
      simp only [List.map_cons, if_pos hk, getF_cons, if_neg h1, if_neg h2]
      exact ih
    · by_cases hk2 : q.1 = k2
      · simp only [List.map_cons, if_neg hk, getF_cons, if_pos hk2]
      · simp only [List.map_cons, if_neg hk, getF_cons, if_neg hk2]
        exact ih

theorem getF_setF_same (l : List (String × Json)) (k : String) (v : Json) :
    getF (setF l k v) k = some v := by
  unfold setF
  by_cases h : (getF l k).isSome
  · rw [if_pos h, getF_map_replace]
    obtain ⟨w, hw⟩ := Option.isSome_iff_exists.mp h
    rw [hw]; rfl
  · rw [if_neg h]
    have h0 : getF l k = none := Option.not_isSome_iff_eq_none.mp h
    rw [getF_append_none _ h0, getF_cons, if_pos rfl]

theorem getF_setF_other (l : List (String × Json)) (k k2 : String) (v : Json)
    (hne : k2 ≠ k) : getF (setF l k v) k2 = getF l k2 := by
  unfold setF
  by_cases h : (getF l k).isSome
  · rw [if_pos h, getF_map_replace_other _ _ _ _ hne]
  · rw [if_neg h]
    cases hg : getF l k2 with
    | some w => rw [getF_append_some _ hg]
    | none =>
      rw [getF_append_none _ hg, getF_cons, if_neg (fun hc => hne hc.symm)]
      rfl

theorem setF_setF_same (l : List (String × Json)) (k : String) (v w : Json) :
    setF (setF l k v) k w = setF l k w := by
  have h2 : (getF (setF l k v) k).isSome := by rw [getF_setF_same]; rfl
  have hvw : setF (setF l k v) k w =
      (setF l k v).map (fun p => if p.1 = k then (k, w) else p) := setF_pos _ _ w h2
  by_cases h : (getF l k).isSome
  · have hv := setF_pos l k v h
    have hw := setF_pos l k w h
    rw [hvw, hv, hw, List.map_map]
    apply List.map_congr_left
    intro p hp
    by_cases hpk : p.1 = k
    · simp [Function.comp, hpk]
    · simp [Function.comp, hpk]
  · have h0 : getF l k = none := Option.not_isSome_iff_eq_none.mp h
    have hnotin : ∀ p ∈ l, p.1 ≠ k := (getF_eq_none_iff l k).mp h0
    have hv := setF_neg l k v h0
    have hw := setF_neg l k w h0
    rw [hvw, hv, hw, List.map_append]
    congr 1
    · rw [List.map_congr_left (fun p hp => if_neg (hnotin p hp))]
      exact List.map_id l
    · simp

theorem mem_setF_eq {l : List (String × Json)} {k : String} {v : Json}
    {p : String × Json} (hp : p ∈ setF l k v) (hk : p.1 = k) : p.2 = v := by
  unfold setF at hp
  by_cases h : (getF l k).isSome
  · rw [if_pos h] at hp
    obtain ⟨q, hq, hgq⟩ := List.mem_map.mp hp
    by_cases hqk : q.1 = k
    · rw [if_pos hqk] at hgq; rw [← hgq]
    · rw [if_neg hqk] at hgq; subst hgq; exact absurd hk hqk
  · rw [if_neg h] at hp
    have h0 : getF l k = none := Option.not_isSome_iff_eq_none.mp h
    rcases List.mem_append.mp hp with hl | hr
    · exact absurd hk ((getF_eq_none_iff l k).mp h0 p hl)
    · rw [List.mem_singleton] at hr; rw [hr]

theorem mem_setF_other {l : List (String × Json)} {k k0 : String} {v v0 : Json}
    (hl : ∀ p ∈ l, p.1 = k0 → p.2 = v0) (hne : k ≠ k0) :
    ∀ p ∈ setF l k v, p.1 = k0 → p.2 = v0 := by
  intro p hp hk0
  unfold setF at hp
  by_cases h : (getF l k).isSome
  · rw [if_pos h] at hp
    obtain ⟨q, hq, hgq⟩ := List.mem_map.mp hp
    by_cases hqk : q.1 = k
    · rw [if_pos hqk] at hgq; subst hgq; exact absurd hk0 hne
    · rw [if_neg hqk] at hgq; subst hgq; exact hl q hq hk0
  · rw [if_neg h] at hp
    rcases List.mem_append.mp hp with hl2 | hr
    · exact hl p hl2 hk0
    · rw [List.mem_singleton] at hr; subst hr; exact absurd hk0 hne

theorem setF_eq_self {l : List (String × Json)} {k : String} {v : Json}
    (hs : (getF l k).isSome) (hall : ∀ p ∈ l, p.1 = k → p.2 = v) :
    setF l k v = l := by
  unfold setF
  rw [if_pos hs]
  have hpt : ∀ p ∈ l, (if p.1 = k then (k, v) else p) = p := by
    intro p hp
    by_cases hk : p.1 = k
    · rw [if_pos hk]
      have h2 := hall p hp hk
      obtain ⟨a, b⟩ := p
      simp only at hk h2
      rw [hk, h2]
    · rw [if_neg hk]
  rw [List.map_congr_left hpt]
  exact List.map_id l

theorem delF_eq_self {l : List (String × Json)} {k : String}
    (h : getF l k = none) : delF l k = l := by
  unfold delF
  rw [List.filter_eq_self]
  intro p hp
  simpa using (getF_eq_none_iff l k).mp h p hp

theorem getF_delF_same (l : List (String × Json)) (k : String) :
    getF (delF l k) k = none := by
  rw [getF_eq_none_iff]
  intro p hp
  simpa using (List.of_mem_filter hp : _ = true)

theorem getF_filter_keyTrue (l : List (String × Json)) (pr : String × Json → Bool)
    (k : String) (hk : ∀ p : String × Json, p.1 = k → pr p = true) :
    getF (l.filter pr) k = getF l k := by
  induction l with
  | nil => rfl
  | cons p t ih =>
    by_cases hp : p.1 = k
    · rw [List.filter_cons_of_pos (hk p hp), getF_cons, getF_cons, if_pos hp, if_pos hp]
    · by_cases hq : pr p = true
      · rw [List.filter_cons_of_pos hq, getF_cons, getF_cons, if_neg hp, if_neg hp]
        exact ih
      · rw [List.filter_cons_of_neg (by simpa using hq), getF_cons, if_neg hp]
        exact ih

theorem getF_delF_other (l : List (String × Json)) (k k2 : String) (hne : k2 ≠ k) :
    getF (delF l k) k2 = getF l k2 := by
  unfold delF
  exact getF_filter_keyTrue l _ k2 (fun p hp => by rw [hp]; simpa using hne)

theorem getF_map_ovr (a b : List (String × Json)) (k : String) :
    getF (a.map (ovr b)) k = (getF a k).map (fun v => (getF b k).getD v) := by
  induction a with
  | nil => rfl
  | cons q t ih =>
    by_cases hk : q.1 = k
    · simp [List.map_cons, getF_cons, ovr, hk]
    · simp only [List.map_cons, getF_cons, ovr]
      rw [if_neg hk, if_neg hk]
      exact ih

theorem getF_mergeObj_some {a b : List (String × Json)} {k : String} {w : Json}
    (hb : getF b k = some w) : getF (mergeObj a b) k = some w := by
  unfold mergeObj
  cases ha : getF a k with
  | some v =>
    apply getF_append_some
    rw [getF_map_ovr, ha, hb]; rfl
  | none =>
    rw [getF_append_none]
    · rw [getF_filter_keyTrue _ _ _ (fun p hp => by rw [hp, ha]; rfl)]
      exact hb
    · rw [getF_map_ovr, ha]; rfl

theorem getF_mergeObj_none {a b : List (String × Json)} {k : String}
    (hb : getF b k = none) : getF (mergeObj a b) k = getF a k := by
  unfold mergeObj
  cases ha : getF a k with
  | some v =>
    apply getF_append_some
    rw [getF_map_ovr, ha, hb]; rfl
  | none =>
    rw [getF_append_none]
    · rw [getF_filter_keyTrue _ _ _ (fun p hp => by rw [hp, ha]; rfl)]
      exact hb
    · rw [getF_map_ovr, ha]; rfl

theorem mergeObj_nil (a : List (String × Json)) : mergeObj a [] = a := by
  unfold mergeObj
  have hpt : ∀ p ∈ a, ovr [] p = p := by
    intro p hp; obtain ⟨x, y⟩ := p; rfl
  simp only [List.filter_nil, List.append_nil]
  rw [List.map_congr_left hpt]
  exact List.map_id a

/-- Re-merging the defaults into a previous merge result is the identity:
the key absorption fact behind idempotence of `loadState`. -/
theorem mergeObj_absorb (a r : List (String × Json))
    (g : String × Json → String × Json)
    (hg : ∀ p, (g p).1 = p.1) (hnd : (a.map Prod.fst).Nodup)
    (hr : ∀ p ∈ r, getF a p.1 = none) :
    mergeObj a (a.map g ++ r) = a.map g ++ r := by
  unfold mergeObj
  congr 1
  · apply List.map_congr_left
    intro p hp
    unfold ovr
    rw [getF_append_some _ (getF_map_of_mem hg hnd hp)]
    exact Prod.ext (by simp [hg p]) rfl
  · rw [List.filter_append]
    have h1 : (a.map g).filter (fun p => (getF a p.1).isNone) = [] := by
      rw [List.filter_eq_nil_iff]
      intro p hp
      obtain ⟨q, hq, rfl⟩ := List.mem_map.mp hp
      rw [hg q]
      have hsome := getF_isSome_of_mem hq
      cases hgq : getF a q.1 with
      | none => rw [hgq] at hsome; cases hsome
      | some v => simp
    have h2 : r.filter (fun p => (getF a p.1).isNone) = r := by
      rw [List.filter_eq_self]
      intro p hp
      rw [hr p hp]; rfl
    rw [h1, h2, List.nil_append]

/-- A `setF` at a key of `a` pushes inside the mapped part of a merge-shaped
list. -/
theorem setF_map_append (a r : List (String × Json))
    (g : String × Json → String × Json) (k : String) (v : Json)
    (hg : ∀ p, (g p).1 = p.1) (hs : (getF a k).isSome)
    (hr : ∀ p ∈ r, p.1 ≠ k) :
    setF (a.map g ++ r) k v =
      a.map (fun p => if p.1 = k then (k, v) else g p) ++ r := by
  unfold setF
  have h1 : (getF (a.map g ++ r) k).isSome := by
    have := getF_map_isSome a g hg k
    obtain ⟨w, hw⟩ := Option.isSome_iff_exists.mp (this ▸ hs)
    rw [getF_append_some _ hw]; rfl
  rw [if_pos h1, List.map_append]
  congr 1
  · rw [List.map_map]
    apply List.map_congr_left
    intro p hp
    by_cases hpk : p.1 = k
    · simp [Function.comp, hg p, hpk]
    · simp [Function.comp, hg p, hpk]
  · rw [List.map_congr_left (fun p hp => if_neg (hr p hp))]
    exact List.map_id r

/-! ## Lemmas: the per-entry migration pipeline -/

theorem getF_migrateXp_other (o : List (String × Json)) (k : String)
    (h : k ≠ "xpPotential") : getF (migrateXp o) k = getF o k := by
  unfold migrateXp
  split
  · rfl
  · rw [getF_setF_other _ _ _ _ h]
  · rfl

theorem getF_defaultCompleted_other (o : List (String × Json)) (k : String)
    (h : k ≠ "completed") : getF (defaultCompleted o) k = getF o k := by
  unfold defaultCompleted
  split
  · rfl
  · rw [getF_setF_other _ _ _ _ h]

theorem getF_coerceXp_other (o : List (String × Json)) (k : String)
    (h : k ≠ "xpPotential") : getF (coerceXp o) k = getF o k := by
  unfold coerceXp
  split
  · rfl
  · rw [getF_setF_other _ _ _ _ h]

theorem getF_coalesce_other (o : List (String × Json)) (k0 k : String)
    (h : k ≠ k0) : getF (coalesce o k0) k = getF o k := by
  unfold coalesce
  split
  · rw [getF_setF_other _ _ _ _ h]
  · rw [getF_setF_other _ _ _ _ h]
  · rfl

theorem coerceXp_num (o : List (String × Json)) :
    isNumOpt (getF (coerceXp o) "xpPotential") = true := by
  unfold coerceXp
  split
  · rename_i q heq
    rw [heq]; rfl
  · rw [getF_setF_same]; rfl

theorem defaultCompleted_bool (o : List (String × Json)) :
    isBoolOpt (getF (defaultCompleted o) "completed") = true := by
  unfold defaultCompleted
  split
  · rename_i b heq
    rw [heq]; rfl
  · rw [getF_setF_same]; rfl

theorem num_of_isNumOpt {v : Option Json} (h : isNumOpt v = true) :
    ∃ q, v = some (.num q) := by
  cases v with
  | none => cases h
  | some j =>
    cases j with
    | num q => exact ⟨q, rfl⟩
    | null => cases h
    | bool b => cases h
    | str s => cases h
    | arr xs => cases h
    | obj l => cases h

theorem bool_of_isBoolOpt {v : Option Json} (h : isBoolOpt v = true) :
    ∃ b, v = some (.bool b) := by
  cases v with
  | none => cases h
  | some j =>
    cases j with
    | bool b => exact ⟨b, rfl⟩
    | null => cases h
    | num q => cases h
    | str s => cases h
    | arr xs => cases h
    | obj l => cases h

theorem migrateXp_eq_self {o : List (String × Json)}
    (h : isNumOpt (getF o "xpPotential") = true) : migrateXp o = o := by
  obtain ⟨q, hq⟩ := num_of_isNumOpt h
  unfold migrateXp
  rw [hq]
  cases hx2 : getF o "xp" with
  | none => rfl
  | some v => cases v <;> rfl

theorem defaultCompleted_eq_self {o : List (String × Json)}
    (h : isBoolOpt (getF o "completed") = true) : defaultCompleted o = o := by
  obtain ⟨b, hb⟩ := bool_of_isBoolOpt h
  unfold defaultCompleted
  rw [hb]

theorem coerceXp_eq_self {o : List (String × Json)}
    (h : isNumOpt (getF o "xpPotential") = true) : coerceXp o = o := by
  obtain ⟨q, hq⟩ := num_of_isNumOpt h
  unfold coerceXp
  rw [hq]

theorem coalesce_eq_self {o : List (String × Json)} {k : String} {v : Json}
    (h : getF o k = some v) (hv : v ≠ .null) : coalesce o k = o := by
  unfold coalesce
  rw [h]
  cases v with
  | null => exact absurd rfl hv
  | bool b => rfl
  | num q => rfl
  | str s => rfl
  | arr xs => rfl
  | obj l => rfl

theorem coalesce_spec (o : List (String × Json)) (k : String) :
    ∃ v, getF (coalesce o k) k = some v ∧ v ≠ .null := by
  unfold coalesce
  cases h : getF o k with
  | none => exact ⟨.str "", getF_setF_same _ _ _, fun hc => by cases hc⟩
  | some v =>
    cases v with
    | null => exact ⟨.str "", getF_setF_same _ _ _, fun hc => by cases hc⟩
    | bool b => exact ⟨.bool b, h, fun hc => by cases hc⟩
    | num q => exact ⟨.num q, h, fun hc => by cases hc⟩
    | str s => exact ⟨.str s, h, fun hc => by cases hc⟩
    | arr xs => exact ⟨.arr xs, h, fun hc => by cases hc⟩
    | obj l => exact ⟨.obj l, h, fun hc => by cases hc⟩

theorem getF_coalesce_nonnull {o : List (String × Json)} {k : String} (k2 : String)
    (h : ∃ v, getF o k = some v ∧ v ≠ .null) :
    ∃ v, getF (coalesce o k2) k = some v ∧ v ≠ .null := by
  obtain ⟨v, hv, hnn⟩ := h
  by_cases hk : k = k2
  · subst hk
    rw [coalesce_eq_self hv hnn]
    exact ⟨v, hv, hnn⟩
  · rw [getF_coalesce_other _ _ _ hk]
    exact ⟨v, hv, hnn⟩

theorem getF_coalesceAll_other (ks : List String) (o : List (String × Json)) (k : String)
    (hk : k ∉ ks) : getF (coalesceAll o ks) k = getF o k := by
  induction ks generalizing o with
  | nil => rfl
  | cons k0 t ih =>
    have h1 : k ≠ k0 := fun h => hk (h ▸ List.mem_cons_self k0 t)
    have h2 : k ∉ t := fun h => hk (List.mem_cons_of_mem _ h)
    show getF (coalesceAll (coalesce o k0) t) k = getF o k
    rw [ih _ h2, getF_coalesce_other _ _ _ h1]

theorem coalesceAll_nonnull (ks : List String) (o : List (String × Json)) (k : String)
    (h : ∃ v, getF o k = some v ∧ v ≠ .null) :
    ∃ v, getF (coalesceAll o ks) k = some v ∧ v ≠ .null := by
  induction ks generalizing o with
  | nil => exact h
  | cons k0 t ih => exact ih _ (getF_coalesce_nonnull k0 h)

theorem coalesceAll_spec (ks : List String) (o : List (String × Json)) (k : String)
    (hk : k ∈ ks) : ∃ v, getF (coalesceAll o ks) k = some v ∧ v ≠ .null := by
  induction ks generalizing o with
  | nil => cases hk
  | cons k0 t ih =>
    rcases List.mem_cons.mp hk with rfl | hk2
    · exact coalesceAll_nonnull t _ k (coalesce_spec o k)
    · exact ih _ hk2

theorem coalesceAll_eq_self (ks : List String) (o : List (String × Json))
    (h : ∀ k ∈ ks, ∃ v, getF o k = some v ∧ v ≠ .null) : coalesceAll o ks = o := by
  induction ks with
  | nil => rfl
  | cons k0 t ih =>
    obtain ⟨v, hv, hnn⟩ := h k0 (List.mem_cons_self k0 t)
    show coalesceAll (coalesce o k0) t = o
    rw [coalesce_eq_self hv hnn]
    exact ih (fun k hk => h k (List.mem_cons_of_mem _ hk))

/-- Facts established by the migration pipeline about its result. -/
theorem normalizeEntryFields_facts (o : List (String × Json)) :
    isNumOpt (getF (normalizeEntryFields o) "xpPotential") = true ∧
    isBoolOpt (getF (normalizeEntryFields o) "completed") = true ∧
    getF (normalizeEntryFields o) "xp" = none ∧
    ∀ k ∈ emptyDefaultKeys,
      ∃ v, getF (normalizeEntryFields o) k = some v ∧ v ≠ .null := by
  unfold normalizeEntryFields
  refine ⟨?_, ?_, ?_, ?_⟩
  · rw [getF_coalesceAll_other _ _ _ (by decide)]
    exact coerceXp_num _
  · rw [getF_coalesceAll_other _ _ _ (by decide), getF_coerceXp_other _ _ (by decide),
      getF_delF_other _ _ _ (by decide)]
    exact defaultCompleted_bool _
  · rw [getF_coalesceAll_other _ _ _ (by decide), getF_coerceXp_other _ _ (by decide)]
    exact getF_delF_same _ _
  · intro k hk
    exact coalesceAll_spec _ _ _ hk

/-- The per-entry migration is idempotent on field lists. -/
theorem normalizeEntryFields_fix (o : List (String × Json)) :
    normalizeEntryFields (normalizeEntryFields o) = normalizeEntryFields o := by
  obtain ⟨h1, h2, h3, h4⟩ := normalizeEntryFields_facts o
  conv_lhs => rw [show normalizeEntryFields (normalizeEntryFields o) =
    coalesceAll (coerceXp (delF (defaultCompleted (migrateXp (normalizeEntryFields o)))
      "xp")) emptyDefaultKeys from rfl]
  rw [migrateXp_eq_self h1, defaultCompleted_eq_self h2, delF_eq_self h3,
    coerceXp_eq_self h1, coalesceAll_eq_self _ _ h4]

/-- The per-entry migration is idempotent. -/
theorem normalizeEntry_idem (e : Json) :
    normalizeEntry (normalizeEntry e) = normalizeEntry e := by
  show Json.obj (normalizeEntryFields (spreadToObj (.obj (normalizeEntryFields (spreadToObj e))))) = _
  rw [show spreadToObj (.obj (normalizeEntryFields (spreadToObj e))) =
    normalizeEntryFields (spreadToObj e) from rfl]
  rw [normalizeEntryFields_fix]
  rfl

/-! ## Lemmas: `loadState` merge structure and idempotence -/

theorem mergeLog_eq (parsed : Json) :
    (match getMember parsed "log" with
     | some (.arr xs) => Json.arr xs
     | _ => Json.arr []) = Json.arr (mergeLogList parsed) := by
  unfold mergeLogList
  cases h : getMember parsed "log" with
  | none => rfl
  | some v => cases v <;> rfl

theorem filter_keys_none (parsed : Json) :
    ∀ p ∈ (spreadToObj parsed).filter (fun p => (getF defaultFields p.1).isNone),
      getF defaultFields p.1 = none := by
  intro p hp
  have h := List.of_mem_filter hp
  simpa [Option.isNone_iff_eq_none] using h

/-- Setting a default-state key pushes inside the mapped part of the merge. -/
theorem shape_setF (g : String × Json → String × Json) (r : List (String × Json))
    (k : String) (v : Json) (hg : ∀ p, (g p).1 = p.1)
    (hs : (getF defaultFields k).isSome)
    (hr : ∀ p ∈ r, getF defaultFields p.1 = none) :
    setF (defaultFields.map g ++ r) k v =
      defaultFields.map (fun p => if p.1 = k then (k, v) else g p) ++ r := by
  apply setF_map_append _ _ _ _ _ hg hs
  intro p hp hk
  have h2 := hr p hp
  rw [hk] at h2
  rw [h2] at hs
  simp at hs

/-- The merge literal decomposes as the (overridden) default fields followed by
the extra fields of the parsed blob. -/
theorem mergeState_shape (parsed : Json) :
    ∃ g : String × Json → String × Json,
      (∀ p, (g p).1 = p.1) ∧
      mergeState parsed =
        defaultFields.map g ++
          (spreadToObj parsed).filter (fun p => (getF defaultFields p.1).isNone) := by
  refine ⟨fun p =>
    if p.1 = "log" then
      ("log", match getMember parsed "log" with
              | some (.arr xs) => Json.arr xs
              | _ => Json.arr [])
    else if p.1 = "notes" then
      ("notes", .obj (mergeObj defaultNotes (spreadOrEmpty (getMember parsed "notes"))))
    else if p.1 = "baselines" then
      ("baselines", .obj (mergeObj defaultBaselines (spreadOrEmpty (getMember parsed "baselines"))))
    else ovr (spreadToObj parsed) p, ?_, ?_⟩
  · intro p
    by_cases h1 : p.1 = "log"
    · simp [h1]
    · by_cases h2 : p.1 = "notes"
      · simp [h1, h2]
      · by_cases h3 : p.1 = "baselines"
        · simp [h1, h2, h3]
        · simp [h1, h2, h3, ovr]
  · show setF (setF (setF (mergeObj defaultFields (spreadToObj parsed)) "baselines" _)
      "notes" _) "log" _ = _
    rw [show mergeObj defaultFields (spreadToObj parsed) =
      defaultFields.map (ovr (spreadToObj parsed)) ++
        (spreadToObj parsed).filter (fun p => (getF defaultFields p.1).isNone) from rfl]
    rw [shape_setF (ovr (spreadToObj parsed)) _ _ _ (fun p => rfl) (by decide)
      (filter_keys_none parsed)]
    rw [shape_setF (fun p => if p.1 = "baselines" then
        ("baselines", .obj (mergeObj defaultBaselines
          (spreadOrEmpty (getMember parsed "baselines"))))
      else ovr (spreadToObj parsed) p) _ _ _
      (by intro p; by_cases h : p.1 = "baselines" <;> simp [h, ovr]) (by decide)
      (filter_keys_none parsed)]
    rw [shape_setF (fun p => if p.1 = "notes" then
        ("notes", .obj (mergeObj defaultNotes (spreadOrEmpty (getMember parsed "notes"))))
      else if p.1 = "baselines" then
        ("baselines", .obj (mergeObj defaultBaselines
          (spreadOrEmpty (getMember parsed "baselines"))))
      else ovr (spreadToObj parsed) p) _ _ _
      (by intro p
          by_cases h2 : p.1 = "notes"
          · simp [h2]
          · by_cases h3 : p.1 = "baselines" <;> simp [h2, h3, ovr]) (by decide)
      (filter_keys_none parsed)]

theorem getF_mergeState_log (parsed : Json) :
    getF (mergeState parsed) "log" =
      some (match getMember parsed "log" with
            | some (.arr xs) => Json.arr xs
            | _ => Json.arr []) := by
  unfold mergeState
  exact getF_setF_same _ _ _

theorem getF_mergeState_baselines (parsed : Json) :
    getF (mergeState parsed) "baselines" =
      some (.obj (mergeObj defaultBaselines (spreadOrEmpty (getMember parsed "baselines")))) := by
  unfold mergeState
  rw [getF_setF_other _ _ _ _ (by decide), getF_setF_other _ _ _ _ (by decide),
    getF_setF_same]

theorem getF_mergeState_notes (parsed : Json) :
    getF (mergeState parsed) "notes" =
      some (.obj (mergeObj defaultNotes (spreadOrEmpty (getMember parsed "notes")))) := by
  unfold mergeState
  rw [getF_setF_other _ _ _ _ (by decide), getF_setF_same]

theorem mergeState_val_baselines (parsed : Json) :
    ∀ p ∈ mergeState parsed, p.1 = "baselines" →
      p.2 = .obj (mergeObj defaultBaselines (spreadOrEmpty (getMember parsed "baselines"))) := by
  unfold mergeState
  exact mem_setF_other (mem_setF_other (fun p hp hk => mem_setF_eq hp hk) (by decide)) (by decide)

theorem mergeState_val_notes (parsed : Json) :
    ∀ p ∈ mergeState parsed, p.1 = "notes" →
      p.2 = .obj (mergeObj defaultNotes (spreadOrEmpty (getMember parsed "notes"))) := by
  unfold mergeState
  exact mem_setF_other (fun p hp hk => mem_setF_eq hp hk) (by decide)

/-- Pushing the inner absorption through for the `baselines`/`notes` objects. -/
theorem mergeObj_absorb_self (a b : List (String × Json))
    (hnd : (a.map Prod.fst).Nodup) :
    mergeObj a (mergeObj a b) = mergeObj a b := by
  rw [show mergeObj a b =
    a.map (ovr b) ++ b.filter (fun p => (getF a p.1).isNone) from rfl]
  exact mergeObj_absorb a _ _ (fun p => rfl) hnd
    (fun p hp => by simpa [Option.isNone_iff_eq_none] using List.of_mem_filter hp)

theorem loadStateFromParsed_eq (parsed : Json) (h : parsed ≠ Json.null) :
    loadStateFromParsed parsed =
      .obj (setF (mergeState parsed) "log"
        (normalizeLog (getF (mergeState parsed) "log"))) := by
  cases parsed with
  | null => exact absurd rfl h
  | bool b => rfl
  | num q => rfl
  | str s => rfl
  | arr xs => rfl
  | obj l => rfl

theorem loadStateFromParsed_isObj (parsed : Json) :
    ∃ l, loadStateFromParsed parsed = .obj l := by
  cases parsed with
  | null => exact ⟨defaultFields, rfl⟩
  | bool b => exact ⟨_, rfl⟩
  | num q => exact ⟨_, rfl⟩
  | str s => exact ⟨_, rfl⟩
  | arr xs => exact ⟨_, rfl⟩
  | obj l => exact ⟨_, rfl⟩

/-- The merge literal applied to an already-merged state object is the
identity on it. -/
theorem mergeState_absorb (B r : List (String × Json))
    (g : String × Json → String × Json)
    (sb nb : List (String × Json)) (lv : List Json)
    (hg : ∀ p, (g p).1 = p.1)
    (hrnone : ∀ p ∈ r, getF defaultFields p.1 = none)
    (hshape : B = defaultFields.map g ++ r)
    (hX : getF B "baselines" = some (.obj (mergeObj defaultBaselines sb)))
    (hY : getF B "notes" = some (.obj (mergeObj defaultNotes nb)))
    (hL : getF B "log" = some (.arr lv))
    (hvalX : ∀ p ∈ B, p.1 = "baselines" → p.2 = .obj (mergeObj defaultBaselines sb))
    (hvalY : ∀ p ∈ B, p.1 = "notes" → p.2 = .obj (mergeObj defaultNotes nb))
    (hvalL : ∀ p ∈ B, p.1 = "log" → p.2 = .arr lv) :
    mergeState (.obj B) = B := by
  unfold mergeState
  rw [show spreadToObj (Json.obj B) = B from rfl]
  rw [show getMember (Json.obj B) "baselines" = getF B "baselines" from rfl, hX]
  rw [show getMember (Json.obj B) "notes" = getF B "notes" from rfl, hY]
  rw [show getMember (Json.obj B) "log" = getF B "log" from rfl, hL]
  have habs : mergeObj defaultFields B = B := by
    rw [hshape]
    exact mergeObj_absorb defaultFields r g hg (by decide) hrnone
  rw [habs]
  rw [show spreadOrEmpty (some (Json.obj (mergeObj defaultBaselines sb))) =
    mergeObj defaultBaselines sb from rfl]
  rw [show spreadOrEmpty (some (Json.obj (mergeObj defaultNotes nb))) =
    mergeObj defaultNotes nb from rfl]
  rw [mergeObj_absorb_self _ _ (by decide), mergeObj_absorb_self _ _ (by decide)]
  rw [show (match some (Json.arr lv) with
      | some (Json.arr xs) => Json.arr xs
      | _ => Json.arr []) = Json.arr lv from rfl]
  rw [setF_eq_self (by rw [hX]; rfl) hvalX]
  rw [setF_eq_self (by rw [hY]; rfl) hvalY]
  exact setF_eq_self (by rw [hL]; rfl) hvalL

theorem loadStateFromParsed_idem_of_ne (parsed : Json) (hn : parsed ≠ .null) :
    loadStateFromParsed (loadStateFromParsed parsed) = loadStateFromParsed parsed := by
  obtain ⟨g, hg, hshape⟩ := mergeState_shape parsed
  have hrnone := filter_keys_none parsed
  have hL : getF (mergeState parsed) "log" = some (Json.arr (mergeLogList parsed)) := by
    rw [getF_mergeState_log, mergeLog_eq]
  have hbase : loadStateFromParsed parsed =
      .obj (setF (mergeState parsed) "log"
        (Json.arr ((mergeLogList parsed).map normalizeEntry))) := by
    rw [loadStateFromParsed_eq parsed hn, hL,
      show normalizeLog (some (Json.arr (mergeLogList parsed))) =
        Json.arr ((mergeLogList parsed).map normalizeEntry) from rfl]
  have hshape2 : setF (mergeState parsed) "log"
        (Json.arr ((mergeLogList parsed).map normalizeEntry)) =
      defaultFields.map (fun p =>
        if p.1 = "log" then
          ("log", Json.arr ((mergeLogList parsed).map normalizeEntry))
        else g p) ++
        (spreadToObj parsed).filter (fun p => (getF defaultFields p.1).isNone) := by
    rw [hshape]
    exact shape_setF g _ "log" _ hg (by decide) hrnone
  have hg2 : ∀ p, ((fun p : String × Json =>
      if p.1 = "log" then
        ("log", Json.arr ((mergeLogList parsed).map normalizeEntry))
      else g p) p).1 = p.1 := by
    intro p
    by_cases h : p.1 = "log" <;> simp [h, hg p]
  have hX : getF (setF (mergeState parsed) "log"
        (Json.arr ((mergeLogList parsed).map normalizeEntry))) "baselines" =
      some (.obj (mergeObj defaultBaselines (spreadOrEmpty (getMember parsed "baselines")))) := by
    rw [getF_setF_other _ _ _ _ (by decide), getF_mergeState_baselines]
  have hY : getF (setF (mergeState parsed) "log"
        (Json.arr ((mergeLogList parsed).map normalizeEntry))) "notes" =
      some (.obj (mergeObj defaultNotes (spreadOrEmpty (getMember parsed "notes")))) := by
    rw [getF_setF_other _ _ _ _ (by decide), getF_mergeState_notes]
  have hLb : getF (setF (mergeState parsed) "log"
        (Json.arr ((mergeLogList parsed).map normalizeEntry))) "log" =
      some (Json.arr ((mergeLogList parsed).map normalizeEntry)) := getF_setF_same _ _ _
  have hvalX : ∀ p ∈ setF (mergeState parsed) "log"
        (Json.arr ((mergeLogList parsed).map normalizeEntry)),
      p.1 = "baselines" →
      p.2 = .obj (mergeObj defaultBaselines (spreadOrEmpty (getMember parsed "baselines"))) :=
    mem_setF_other (mergeState_val_baselines parsed) (by decide)
  have hvalY : ∀ p ∈ setF (mergeState parsed) "log"
        (Json.arr ((mergeLogList parsed).map normalizeEntry)),
      p.1 = "notes" →
      p.2 = .obj (mergeObj defaultNotes (spreadOrEmpty (getMember parsed "notes"))) :=
    mem_setF_other (mergeState_val_notes parsed) (by decide)
  have hvalL : ∀ p ∈ setF (mergeState parsed) "log"
        (Json.arr ((mergeLogList parsed).map normalizeEntry)),
      p.1 = "log" → p.2 = Json.arr ((mergeLogList parsed).map normalizeEntry) :=
    fun p hp hk => mem_setF_eq hp hk
  rw [hbase]
  have hn2 : (Json.obj (setF (mergeState parsed) "log"
      (Json.arr ((mergeLogList parsed).map normalizeEntry)))) ≠ Json.null := by
    intro hc; cases hc
  rw [loadStateFromParsed_eq _ hn2]
  have hm2 := mergeState_absorb
    (setF (mergeState parsed) "log" (Json.arr ((mergeLogList parsed).map normalizeEntry)))
    ((spreadToObj parsed).filter (fun p => (getF defaultFields p.1).isNone))
    (fun p => if p.1 = "log" then
        ("log", Json.arr ((mergeLogList parsed).map normalizeEntry))
      else g p)
    (spreadOrEmpty (getMember parsed "baselines"))
    (spreadOrEmpty (getMember parsed "notes"))
    ((mergeLogList parsed).map normalizeEntry)
    hg2 hrnone hshape2 hX hY hLb hvalX hvalY hvalL
  rw [hm2, hLb]
  have hmap : ((mergeLogList parsed).map normalizeEntry).map normalizeEntry =
      (mergeLogList parsed).map normalizeEntry := by
    rw [List.map_map]
    exact List.map_congr_left (fun e he => normalizeEntry_idem e)
  have hnl2 : normalizeLog (some (Json.arr ((mergeLogList parsed).map normalizeEntry))) =
      Json.arr ((mergeLogList parsed).map normalizeEntry) := by
    show Json.arr (((mergeLogList parsed).map normalizeEntry).map normalizeEntry) = _
    rw [hmap]
  rw [hnl2]
  exact congrArg Json.obj (setF_eq_self (by rw [hLb]; rfl) hvalL)

/-! ## Lemmas: earned XP and the complete toggle -/

theorem oAdd_zero (x : Option JNum) : oAdd x (some (.fin 0)) = x := by
  rcases x with _ | (q | _ | _) <;> simp [oAdd]

theorem zero_oAdd (x : Option JNum) : oAdd (some (.fin 0)) x = x := by
  rcases x with _ | (q | _ | _) <;> simp [oAdd]

theorem oAdd_comm (a b : Option JNum) : oAdd a b = oAdd b a := by
  rcases a with _ | (qa | _ | _) <;> rcases b with _ | (qb | _ | _) <;>
    simp [oAdd] <;> ring

theorem oAdd_assoc (a b c : Option JNum) :
    oAdd (oAdd a b) c = oAdd a (oAdd b c) := by
  rcases a with _ | (qa | _ | _) <;> rcases b with _ | (qb | _ | _) <;>
    rcases c with _ | (qc | _ | _) <;> simp [oAdd] <;> ring

theorem oAdd_toggle_up (P Q : Option JNum) (q : ℚ) :
    oAdd (oAdd P Q) (some (.fin q)) = oAdd P (oAdd (some (.fin q)) Q) := by
  rw [oAdd_assoc, oAdd_comm Q (some (JNum.fin q))]

theorem oAdd_toggle_down (P Q : Option JNum) (q : ℚ) :
    oAdd (oAdd P (oAdd (some (.fin q)) Q)) (some (.fin (-q))) = oAdd P Q := by
  rw [oAdd_assoc P (oAdd (some (.fin q)) Q) (some (.fin (-q))),
    oAdd_assoc (some (.fin q)) Q (some (.fin (-q))),
    oAdd_comm Q (some (JNum.fin (-q))),
    ← oAdd_assoc (some (JNum.fin q)) (some (JNum.fin (-q))) Q,
    show oAdd (some (JNum.fin q)) (some (JNum.fin (-q))) = some (JNum.fin 0) by
      simp [oAdd],
    zero_oAdd]

theorem jsSum_shift (xs : List JNum) :
    ∀ a : Option JNum, xs.foldl (fun s x => oAdd s (some x)) a = oAdd a (jsSum xs) := by
  induction xs with
  | nil => intro a; exact (oAdd_zero a).symm
  | cons x t ih =>
    intro a
    have h2 : jsSum (x :: t) = oAdd (some x) (jsSum t) := by
      show List.foldl (fun s y => oAdd s (some y)) (oAdd (some (.fin 0)) (some x)) t = _
      rw [ih, zero_oAdd]
    rw [List.foldl_cons, ih, h2, oAdd_assoc]

theorem jsSum_cons (x : JNum) (t : List JNum) :
    jsSum (x :: t) = oAdd (some x) (jsSum t) := by
  show List.foldl (fun s y => oAdd s (some y)) (oAdd (some (.fin 0)) (some x)) t = _
  rw [jsSum_shift, zero_oAdd]

theorem jsSum_append (l1 l2 : List JNum) :
    jsSum (l1 ++ l2) = oAdd (jsSum l1) (jsSum l2) := by
  unfold jsSum
  rw [List.foldl_append, jsSum_shift]
  rfl

theorem calcXP_eq_jsSum (log : List Json) : calcXP log = jsSum (log.map entryEarned) := by
  unfold calcXP jsSum
  rw [List.foldl_map]

theorem calcXP_cons (e : Json) (t : List Json) :
    calcXP (e :: t) = oAdd (some (entryEarned e)) (calcXP t) := by
  simp only [calcXP_eq_jsSum, List.map_cons, jsSum_cons]

theorem calcXP_append (l1 l2 : List Json) :
    calcXP (l1 ++ l2) = oAdd (calcXP l1) (calcXP l2) := by
  simp only [calcXP_eq_jsSum, List.map_append, jsSum_append]

theorem entryEarned_obj (l : List (String × Json)) (b : Bool) (x : JNum)
    (hc : getF l "completed" = some (.bool b))
    (hxp : getF l "xpPotential" = some (.num x)) :
    entryEarned (.obj l) = if b then x else .fin 0 := by
  unfold entryEarned
  rw [show getMember (Json.obj l) "completed" = getF l "completed" from rfl, hc,
    show getMember (Json.obj l) "xpPotential" = getF l "xpPotential" from rfl, hxp]
  cases b <;> simp [jsTruthyOpt, jFalsy, jsNumOr0, jsNumber]

theorem entryEarned_setCompleted (l : List (String × Json)) (c : Bool) (x : JNum)
    (hxp : getF l "xpPotential" = some (.num x)) :
    entryEarned (jsSetEntry (.obj l) "completed" (.bool c)) = if c then x else .fin 0 := by
  show entryEarned (.obj (setF l "completed" (.bool c))) = _
  exact entryEarned_obj _ c x (getF_setF_same _ _ _)
    (by rw [getF_setF_other _ _ _ _ (by decide)]; exact hxp)

theorem setCompleted_append (pre : List Json) (e : Json) (post : List Json)
    (id : String) (c : Bool)
    (hpre : ∀ x ∈ pre, jsStrEq (getMember x "id") id = false)
    (he : jsStrEq (getMember e "id") id = true) :
    setCompleted (pre ++ e :: post) id c =
      pre ++ jsSetEntry e "completed" (.bool c) :: post := by
  induction pre with
  | nil =>
    show setCompleted (e :: post) id c = _
    unfold setCompleted
    rw [if_pos he]
    rfl
  | cons x t ih =>
    have hx := hpre x (List.mem_cons_self x t)
    show setCompleted (x :: (t ++ e :: post)) id c = x :: (t ++ _)
    unfold setCompleted
    rw [if_neg (by rw [hx]; exact Bool.false_ne_true)]
    rw [ih (fun y hy => hpre y (List.mem_cons_of_mem _ hy))]

/-! ## Lemmas: `pickRandom` -/

/-- `Math.floor(Math.random() * a.length)` is a valid index of a nonempty
array. -/
theorem floorIdx_lt {α : Type} (q : {q : ℚ // 0 ≤ q ∧ q < 1}) (a : List α)
    (hlen : 0 < a.length) : (Int.floor (q.1 * (a.length : ℚ))).toNat < a.length := by
  have hlenq : (0 : ℚ) < (a.length : ℚ) := by exact_mod_cast hlen
  have hmul : q.1 * (a.length : ℚ) < (a.length : ℚ) := by
    calc q.1 * (a.length : ℚ) < 1 * (a.length : ℚ) :=
          mul_lt_mul_of_pos_right q.2.2 hlenq
      _ = (a.length : ℚ) := one_mul _
  have hfl : Int.floor (q.1 * (a.length : ℚ)) < (a.length : ℤ) :=
    Int.floor_lt.mpr (by exact_mod_cast hmul)
  have hnn : 0 ≤ Int.floor (q.1 * (a.length : ℚ)) :=
    Int.floor_nonneg.mpr (mul_nonneg q.2.1 (le_of_lt hlenq))
  omega

theorem get_cons_eraseIdx_perm {α : Type} :
    ∀ (a : List α) (i : Fin a.length), List.Perm (a.get i :: a.eraseIdx i.1) a
  | x :: t, ⟨0, h⟩ => by
    show List.Perm (x :: (x :: t).eraseIdx 0) (x :: t)
    exact List.Perm.refl _
  | x :: t, ⟨i + 1, h⟩ => by
    have ih := get_cons_eraseIdx_perm t ⟨i, Nat.lt_of_succ_lt_succ h⟩
    show List.Perm (t.get ⟨i, _⟩ :: x :: t.eraseIdx i) (x :: t)
    exact (List.Perm.swap x _ _).trans (List.Perm.cons x ih)

theorem length_eraseIdx_lt {α : Type} (a : List α) (i : ℕ) (hi : i < a.length) :
    (a.eraseIdx i).length + 1 = a.length := by
  have := (get_cons_eraseIdx_perm a ⟨i, hi⟩).length_eq
  simpa [Nat.add_comm] using this

theorem mem_of_mem_eraseIdx {α : Type} {a : List α} {i : ℕ} (hi : i < a.length)
    {x : α} (hx : x ∈ a.eraseIdx i) : x ∈ a := by
  exact (get_cons_eraseIdx_perm a ⟨i, hi⟩).mem_iff.mp (List.mem_cons_of_mem _ hx)

theorem pickRandomGo_spec {α : Type} (rnd : RandSrc) (count : ℕ) :
    ∀ (n t : ℕ) (a out : List α), count - out.length ≤ n →
      ((pickRandomGo rnd t a out count).length =
          out.length + min (count - out.length) a.length) ∧
      (∀ x ∈ pickRandomGo rnd t a out count, x ∈ out ++ a) ∧
      ((out ++ a).Nodup → (pickRandomGo rnd t a out count).Nodup) ∧
      (out.length + a.length ≤ count →
        List.Perm (pickRandomGo rnd t a out count) (out ++ a)) := by
  intro n
  induction n with
  | zero =>
    intro t a out hle
    have hge : count ≤ out.length := by omega
    rw [pickRandomGo]
    rw [dif_neg (by omega)]
    refine ⟨by omega, fun x hx => List.mem_append_left _ hx, ?_, ?_⟩
    · intro hnd
      exact ((List.sublist_append_left out a).nodup hnd)
    · intro hc
      have : a.length = 0 := by omega
      have ha : a = [] := List.length_eq_zero.mp this
      rw [ha, List.append_nil]
  | succ n ih =>
    intro t a out hle
    rw [pickRandomGo]
    by_cases h : out.length < count ∧ 0 < a.length
    · rw [dif_pos h]
      have hlt := floorIdx_lt (rnd t) a h.2
      set i : ℕ := (Int.floor ((rnd t).1 * (a.length : ℚ))).toNat with hi_def
      have hlen : (a.eraseIdx i).length + 1 = a.length := length_eraseIdx_lt a i hlt
      have hperm1 : List.Perm (a.get ⟨i, hlt⟩ :: a.eraseIdx i) a :=
        get_cons_eraseIdx_perm a ⟨i, hlt⟩
      have hperm2 : List.Perm ((out ++ [a.get ⟨i, hlt⟩]) ++ a.eraseIdx i) (out ++ a) := by
        rw [List.append_assoc]
        exact List.Perm.append_left out (by simpa using hperm1)
      obtain ⟨ihlen, ihmem, ihnd, ihperm⟩ :=
        ih (t + 1) (a.eraseIdx i) (out ++ [a.get ⟨i, hlt⟩])
          (by rw [List.length_append]; simp; omega)
      refine ⟨?_, ?_, ?_, ?_⟩
      · rw [ihlen, List.length_append]
        simp only [List.length_cons, List.length_nil]
        omega
      · intro x hx
        have := ihmem x hx
        rcases List.mem_append.mp this with h1 | h2
        · rcases List.mem_append.mp h1 with h3 | h4
          · exact List.mem_append_left _ h3
          · simp at h4
            rw [h4]
            exact List.mem_append_right _ (a.get_mem i hlt)
        · exact List.mem_append_right _ (mem_of_mem_eraseIdx hlt h2)
      · intro hnd
        exact ihnd (hperm2.nodup_iff.mpr hnd)
      · intro hc
        refine (ihperm ?_).trans hperm2
        rw [List.length_append]
        simp only [List.length_cons, List.length_nil]
        omega
    · rw [dif_neg h]
      push_neg at h
      refine ⟨?_, fun x hx => List.mem_append_left _ hx, ?_, ?_⟩
      · rcases Nat.lt_or_ge out.length count with hlt | hge
        · have : a.length = 0 := by
            have := h hlt
            omega
          omega
        · have : count - out.length = 0 := by omega
          omega
      · intro hnd
        exact ((List.sublist_append_left out a).nodup hnd)
      · intro hc
        rcases Nat.lt_or_ge out.length count with hlt | hge
        · have h0 : a.length = 0 := by
            have := h hlt
            omega
          rw [List.length_eq_zero.mp h0, List.append_nil]
        · have h0 : a.length = 0 := by omega
          rw [List.length_eq_zero.mp h0, List.append_nil]

/-- `pickRandom` returns `min count n` pairwise-distinct members of the input;
when `count ≥ n` it returns the whole input up to order. -/
theorem pickRandom_spec {α : Type} (rnd : RandSrc) (arr : List α) (count : ℕ)
    (hnd : arr.Nodup) :
    (pickRandom rnd arr count).length = min count arr.length ∧
    (pickRandom rnd arr count).Nodup ∧
    (∀ x ∈ pickRandom rnd arr count, x ∈ arr) ∧
    (arr.length ≤ count → List.Perm (pickRandom rnd arr count) arr) := by
  obtain ⟨hlen, hmem, hndr, hperm⟩ :=
    pickRandomGo_spec rnd count (count - 0) 0 arr [] (le_refl _)
  refine ⟨?_, ?_, ?_, ?_⟩
  · simpa using hlen
  · exact hndr (by simpa using hnd)
  · intro x hx
    simpa using hmem x hx
  · intro hc
    have := hperm (by simpa using hc)
    simpa using this

/-! ## Lemmas: migration branch behaviour (for the migration claims) -/

theorem migrateXp_copy {o : List (String × Json)} {q : JNum}
    (hxp : getF o "xp" = some (.num q)) (hnone : getF o "xpPotential" = none) :
    migrateXp o = setF o "xpPotential" (.num q) := by
  unfold migrateXp
  rw [hnone, hxp]

theorem migrateXp_notNum {o : List (String × Json)}
    (h1 : isNumOpt (getF o "xpPotential") = false)
    (h2 : isNumOpt (getF o "xp") = false) : migrateXp o = o := by
  unfold migrateXp
  cases ha : getF o "xpPotential" with
  | none =>
    cases hb : getF o "xp" with
    | none => rfl
    | some v =>
      cases v
      case num q => rw [hb] at h2; exact Bool.noConfusion h2
      all_goals rfl
  | some w =>
    cases w
    case num q => rw [ha] at h1; exact Bool.noConfusion h1
    all_goals
      cases hb : getF o "xp" with
      | none => rfl
      | some v =>
        cases v
        case num q => rw [hb] at h2; exact Bool.noConfusion h2
        all_goals rfl

theorem defaultCompleted_notBool {o : List (String × Json)}
    (h : isBoolOpt (getF o "completed") = false) :
    getF (defaultCompleted o) "completed" = some (.bool true) := by
  unfold defaultCompleted
  cases hc : getF o "completed" with
  | none => rw [getF_setF_same]
  | some v =>
    cases v
    case bool b => rw [hc] at h; exact Bool.noConfusion h
    all_goals rw [getF_setF_same]

theorem coerceXp_notNum {o : List (String × Json)}
    (h : isNumOpt (getF o "xpPotential") = false) :
    getF (coerceXp o) "xpPotential" = some (.num (.fin 0)) := by
  unfold coerceXp
  cases hc : getF o "xpPotential" with
  | none => rw [getF_setF_same]
  | some v =>
    cases v
    case num q => rw [hc] at h; exact Bool.noConfusion h
    all_goals rw [getF_setF_same]

theorem getF_mergeState_other (parsed : Json) (k : String)
    (h1 : k ≠ "log") (h2 : k ≠ "notes") (h3 : k ≠ "baselines") :
    getF (mergeState parsed) k =
      getF (mergeObj defaultFields (spreadToObj parsed)) k := by
  unfold mergeState
  rw [getF_setF_other _ _ _ _ h1, getF_setF_other _ _ _ _ h2, getF_setF_other _ _ _ _ h3]

/-- Full idempotence of normalization over parsed values. -/
theorem loadStateFromParsed_idem (parsed : Json) :
    loadStateFromParsed (loadStateFromParsed parsed) = loadStateFromParsed parsed := by
  cases parsed with
  | null => exact (rfl : loadStateFromParsed DEFAULT_STATE = DEFAULT_STATE)
  | bool b => exact loadStateFromParsed_idem_of_ne _ (fun hc => by cases hc)
  | num q => exact loadStateFromParsed_idem_of_ne _ (fun hc => by cases hc)
  | str s => exact loadStateFromParsed_idem_of_ne _ (fun hc => by cases hc)
  | arr xs => exact loadStateFromParsed_idem_of_ne _ (fun hc => by cases hc)
  | obj l => exact loadStateFromParsed_idem_of_ne _ (fun hc => by cases hc)

/-! ## Lemmas: finiteness and the serialization round trip -/

mutual
theorem jsonRoundTrip_eq_self : ∀ (j : Json), allFinite j = true → jsonRoundTrip j = j
  | .null, _ => rfl
  | .bool b, _ => rfl
  | .num (.fin q), _ => rfl
  | .num .pinf, h => Bool.noConfusion h
  | .num .ninf, h => Bool.noConfusion h
  | .str s, _ => rfl
  | .arr xs, h => congrArg Json.arr (jsonRoundTripL_eq_self xs h)
  | .obj l, h => congrArg Json.obj (jsonRoundTripF_eq_self l h)
theorem jsonRoundTripL_eq_self : ∀ (xs : List Json), allFiniteL xs = true →
    jsonRoundTripL xs = xs
  | [], _ => rfl
  | x :: t, h => by
    have h2 := (Bool.and_eq_true _ _).mp h
    show jsonRoundTrip x :: jsonRoundTripL t = x :: t
    rw [jsonRoundTrip_eq_self x h2.1, jsonRoundTripL_eq_self t h2.2]
theorem jsonRoundTripF_eq_self : ∀ (l : List (String × Json)), allFiniteF l = true →
    jsonRoundTripF l = l
  | [], _ => rfl
  | (k, v) :: t, h => by
    have h2 := (Bool.and_eq_true _ _).mp h
    show (k, jsonRoundTrip v) :: jsonRoundTripF t = (k, v) :: t
    rw [jsonRoundTrip_eq_self v h2.1, jsonRoundTripF_eq_self t h2.2]
end

theorem allFiniteF_iff (l : List (String × Json)) :
    allFiniteF l = true ↔ ∀ p ∈ l, allFinite p.2 = true := by
  induction l with
  | nil => simp [allFiniteF]
  | cons p t ih =>
    obtain ⟨k, v⟩ := p
    rw [show allFiniteF ((k, v) :: t) = (allFinite v && allFiniteF t) from rfl,
      Bool.and_eq_true, ih]
    constructor
    · rintro ⟨h1, h2⟩ q hq
      rcases List.mem_cons.mp hq with rfl | hq2
      · exact h1
      · exact h2 q hq2
    · intro h
      exact ⟨h (k, v) (List.mem_cons_self _ _),
        fun q hq => h q (List.mem_cons_of_mem _ hq)⟩

theorem allFiniteL_iff (xs : List Json) :
    allFiniteL xs = true ↔ ∀ x ∈ xs, allFinite x = true := by
  induction xs with
  | nil => simp [allFiniteL]
  | cons x t ih =>
    rw [show allFiniteL (x :: t) = (allFinite x && allFiniteL t) from rfl,
      Bool.and_eq_true, ih]
    constructor
    · rintro ⟨h1, h2⟩ y hy
      rcases List.mem_cons.mp hy with rfl | hy2
      · exact h1
      · exact h2 y hy2
    · intro h
      exact ⟨h x (List.mem_cons_self _ _), fun y hy => h y (List.mem_cons_of_mem _ hy)⟩

theorem mem_setF_or {l : List (String × Json)} {k : String} {v : Json}
    {p : String × Json} (hp : p ∈ setF l k v) : p ∈ l ∨ p = (k, v) := by
  unfold setF at hp
  by_cases h : (getF l k).isSome
  · rw [if_pos h] at hp
    obtain ⟨q, hq, hqe⟩ := List.mem_map.mp hp
    by_cases hqk : q.1 = k
    · rw [if_pos hqk] at hqe
      right
      exact hqe.symm
    · rw [if_neg hqk] at hqe
      left
      rw [← hqe]
      exact hq
  · rw [if_neg h] at hp
    rcases List.mem_append.mp hp with h2 | h2
    · left; exact h2
    · right; exact List.mem_singleton.mp h2

theorem getF_some_val_mem {l : List (String × Json)} {k : String} {v : Json}
    (h : getF l k = some v) : ∃ p ∈ l, p.2 = v := by
  induction l with
  | nil => cases h
  | cons q t ih =>
    rw [getF_cons] at h
    by_cases hk : q.1 = k
    · rw [if_pos hk] at h
      exact ⟨q, List.mem_cons_self _ _, Option.some.inj h⟩
    · rw [if_neg hk] at h
      obtain ⟨p, hp, he⟩ := ih h
      exact ⟨p, List.mem_cons_of_mem _ hp, he⟩

theorem finite_setF {l : List (String × Json)} {k : String} {v : Json}
    (hl : ∀ p ∈ l, allFinite p.2 = true) (hv : allFinite v = true) :
    ∀ p ∈ setF l k v, allFinite p.2 = true := by
  intro p hp
  rcases mem_setF_or hp with h | h
  · exact hl p h
  · rw [h]
    exact hv

theorem finite_delF {l : List (String × Json)} (k : String)
    (hl : ∀ p ∈ l, allFinite p.2 = true) :
    ∀ p ∈ delF l k, allFinite p.2 = true := by
  intro p hp
  exact hl p (List.mem_of_mem_filter hp)

theorem finite_mergeObj {a b : List (String × Json)}
    (ha : ∀ p ∈ a, allFinite p.2 = true) (hb : ∀ p ∈ b, allFinite p.2 = true) :
    ∀ p ∈ mergeObj a b, allFinite p.2 = true := by
  intro p hp
  rcases List.mem_append.mp hp with h | h
  · obtain ⟨q, hq, hqe⟩ := List.mem_map.mp h
    rw [← hqe]
    show allFinite ((getF b q.1).getD q.2) = true
    cases hg : getF b q.1 with
    | none => exact ha q hq
    | some w =>
      obtain ⟨r, hr, hre⟩ := getF_some_val_mem hg
      show allFinite w = true
      rw [← hre]
      exact hb r hr
  · exact hb p (List.mem_of_mem_filter h)

theorem finite_spreadToObj {j : Json} (hj : allFinite j = true) :
    ∀ p ∈ spreadToObj j, allFinite p.2 = true := by
  intro p hp
  cases j with
  | null => cases hp
  | bool b => cases hp
  | num x => cases hp
  | obj l => exact (allFiniteF_iff l).mp hj p hp
  | arr xs =>
    obtain ⟨q, hq, hqe⟩ := List.mem_map.mp hp
    rw [← hqe]
    exact (allFiniteL_iff xs).mp hj q.2 (List.snd_mem_of_mem_enum hq)
  | str s =>
    obtain ⟨q, hq, hqe⟩ := List.mem_map.mp hp
    rw [← hqe]
    rfl

theorem finite_getMember {j : Json} {k : String} {v : Json}
    (hj : allFinite j = true) (h : getMember j k = some v) : allFinite v = true := by
  cases j with
  | obj l =>
    obtain ⟨p, hp, he⟩ := getF_some_val_mem h
    rw [← he]
    exact (allFiniteF_iff l).mp hj p hp
  | null => exact Option.noConfusion h
  | bool b => exact Option.noConfusion h
  | num x => exact Option.noConfusion h
  | str s => exact Option.noConfusion h
  | arr xs => exact Option.noConfusion h

theorem finite_spreadOrEmpty {j : Json} (k : String) (hj : allFinite j = true) :
    ∀ p ∈ spreadOrEmpty (getMember j k), allFinite p.2 = true := by
  cases hm : getMember j k with
  | none =>
    intro p hp
    exact absurd hp (List.not_mem_nil p)
  | some v =>
    have hv := finite_getMember hj hm
    show ∀ p ∈ (if jFalsy v then [] else spreadToObj v), allFinite p.2 = true
    by_cases hf : jFalsy v
    · rw [if_pos hf]
      intro p hp
      exact absurd hp (List.not_mem_nil p)
    · rw [if_neg hf]
      exact finite_spreadToObj hv

theorem finite_migrateXp {o : List (String × Json)}
    (ho : ∀ p ∈ o, allFinite p.2 = true) :
    ∀ p ∈ migrateXp o, allFinite p.2 = true := by
  unfold migrateXp
  cases ha : getF o "xpPotential" with
  | some w =>
    cases w
    case num x =>
      cases hb : getF o "xp" with
      | none => exact ho
      | some v => cases v <;> exact ho
    all_goals
      cases hb : getF o "xp" with
      | none => exact ho
      | some v =>
        cases v
        case num x2 =>
          refine finite_setF ho ?_
          obtain ⟨r, hr, hre⟩ := getF_some_val_mem hb
          have hf := ho r hr
          rw [hre] at hf
          exact hf
        all_goals exact ho
  | none =>
    cases hb : getF o "xp" with
    | none => exact ho
    | some v =>
      cases v
      case num x2 =>
        refine finite_setF ho ?_
        obtain ⟨r, hr, hre⟩ := getF_some_val_mem hb
        have hf := ho r hr
        rw [hre] at hf
        exact hf
      all_goals exact ho

theorem finite_defaultCompleted {o : List (String × Json)}
    (ho : ∀ p ∈ o, allFinite p.2 = true) :
    ∀ p ∈ defaultCompleted o, allFinite p.2 = true := by
  unfold defaultCompleted
  cases hc : getF o "completed" with
  | none => exact finite_setF ho rfl
  | some v =>
    cases v
    case bool b => exact ho
    all_goals exact finite_setF ho rfl

theorem finite_coerceXp {o : List (String × Json)}
    (ho : ∀ p ∈ o, allFinite p.2 = true) :
    ∀ p ∈ coerceXp o, allFinite p.2 = true := by
  unfold coerceXp
  cases hc : getF o "xpPotential" with
  | none => exact finite_setF ho rfl
  | some v =>
    cases v
    case num x => exact ho
    all_goals exact finite_setF ho rfl

theorem finite_coalesce (k : String) {o : List (String × Json)}
    (ho : ∀ p ∈ o, allFinite p.2 = true) :
    ∀ p ∈ coalesce o k, allFinite p.2 = true := by
  unfold coalesce
  cases hc : getF o k with
  | none => exact finite_setF ho rfl
  | some v =>
    cases v
    case null => exact finite_setF ho rfl
    all_goals exact ho

theorem finite_coalesceAll (ks : List String) {o : List (String × Json)}
    (ho : ∀ p ∈ o, allFinite p.2 = true) :
    ∀ p ∈ coalesceAll o ks, allFinite p.2 = true := by
  induction ks generalizing o with
  | nil => exact ho
  | cons k t ih => exact ih (finite_coalesce k ho)

theorem finite_normalizeEntryFields {o : List (String × Json)}
    (ho : ∀ p ∈ o, allFinite p.2 = true) :
    ∀ p ∈ normalizeEntryFields o, allFinite p.2 = true :=
  finite_coalesceAll _ (finite_coerceXp (finite_delF "xp"
    (finite_defaultCompleted (finite_migrateXp ho))))

theorem finite_normalizeEntry {e : Json} (he : allFinite e = true) :
    allFinite (normalizeEntry e) = true := by
  show allFiniteF (normalizeEntryFields (spreadToObj e)) = true
  exact (allFiniteF_iff _).mpr (finite_normalizeEntryFields (finite_spreadToObj he))

theorem finite_map_normalizeEntry {xs : List Json} (hxs : allFiniteL xs = true) :
    allFiniteL (xs.map normalizeEntry) = true := by
  induction xs with
  | nil => rfl
  | cons x t ih =>
    have h2 := (Bool.and_eq_true _ _).mp hxs
    show (allFinite (normalizeEntry x) && allFiniteL (t.map normalizeEntry)) = true
    rw [finite_normalizeEntry h2.1, ih h2.2]
    rfl

theorem finite_mergeLogList {parsed : Json} (hp : allFinite parsed = true) :
    allFiniteL (mergeLogList parsed) = true := by
  unfold mergeLogList
  cases hm : getMember parsed "log" with
  | none => rfl
  | some v =>
    cases v
    case arr xs => exact finite_getMember hp hm
    all_goals rfl

theorem finite_mergeState {parsed : Json} (hp : allFinite parsed = true) :
    ∀ p ∈ mergeState parsed, allFinite p.2 = true := by
  unfold mergeState
  refine finite_setF (finite_setF (finite_setF ?_ ?_) ?_) ?_
  · exact finite_mergeObj (by decide) (finite_spreadToObj hp)
  · show allFiniteF (mergeObj defaultBaselines
      (spreadOrEmpty (getMember parsed "baselines"))) = true
    exact (allFiniteF_iff _).mpr
      (finite_mergeObj (by decide) (finite_spreadOrEmpty "baselines" hp))
  · show allFiniteF (mergeObj defaultNotes
      (spreadOrEmpty (getMember parsed "notes"))) = true
    exact (allFiniteF_iff _).mpr
      (finite_mergeObj (by decide) (finite_spreadOrEmpty "notes" hp))
  · cases hm : getMember parsed "log" with
    | none => rfl
    | some v =>
      cases v
      case arr xs => exact finite_getMember hp hm
      all_goals rfl

theorem finite_loadStateFromParsed {parsed : Json} (hp : allFinite parsed = true) :
    allFinite (loadStateFromParsed parsed) = true := by
  rcases eq_or_ne parsed Json.null with rfl | hn
  · decide
  · rw [loadStateFromParsed_eq parsed hn]
    have hL0 : getF (mergeState parsed) "log" = some (Json.arr (mergeLogList parsed)) := by
      rw [getF_mergeState_log, mergeLog_eq]
    rw [hL0]
    show allFiniteF (setF (mergeState parsed) "log"
      (Json.arr ((mergeLogList parsed).map normalizeEntry))) = true
    exact (allFiniteF_iff _).mpr (finite_setF (finite_mergeState hp)
      (finite_map_normalizeEntry (finite_mergeLogList hp)))

theorem loadState_finite (r : RawInput) (h : rawFinite r = true) :
    allFinite (loadState r) = true := by
  cases r with
  | absent => decide
  | unparsable => decide
  | parsed p => exact finite_loadStateFromParsed h

/-- `clamp(n, 0, 10)` yields a finite score in `[0, 10]` for every non-`NaN`
number `n`, including `±Infinity`. -/
theorem clamp_bound (x : JNum) :
    ∃ q : ℚ, clamp x (.fin 0) (.fin 10) = .fin q ∧ 0 ≤ q ∧ q ≤ 10 := by
  cases x with
  | pinf => exact ⟨10, rfl, by norm_num⟩
  | ninf => exact ⟨0, rfl, by norm_num⟩
  | fin q =>
    by_cases h1 : (10 : ℚ) ≤ q
    · have hb : jleB (JNum.fin 10) (JNum.fin q) = true := by simp [jleB]; exact h1
      refine ⟨10, ?_, by norm_num, le_refl 10⟩
      show jmax (.fin 0) (jmin (.fin 10) (.fin q)) = JNum.fin 10
      rw [show jmin (JNum.fin 10) (JNum.fin q) = JNum.fin 10 from by
        unfold jmin; rw [if_pos hb]]
      rfl
    · have hb : jleB (JNum.fin 10) (JNum.fin q) = false := by
        simp [jleB]; exact not_le.mp h1
      by_cases h2 : (0 : ℚ) ≤ q
      · have hc : jleB (JNum.fin 0) (JNum.fin q) = true := by simp [jleB]; exact h2
        refine ⟨q, ?_, h2, le_of_not_le h1⟩
        show jmax (.fin 0) (jmin (.fin 10) (.fin q)) = JNum.fin q
        rw [show jmin (JNum.fin 10) (JNum.fin q) = JNum.fin q from by
          unfold jmin; rw [if_neg (by rw [hb]; exact Bool.false_ne_true)]]
        unfold jmax
        rw [if_pos hc]
      · have hc : jleB (JNum.fin 0) (JNum.fin q) = false := by
          simp [jleB]; exact not_le.mp h2
        refine ⟨0, ?_, le_refl 0, by norm_num⟩
        show jmax (.fin 0) (jmin (.fin 10) (.fin q)) = JNum.fin 0
        rw [show jmin (JNum.fin 10) (JNum.fin q) = JNum.fin q from by
          unfold jmin; rw [if_neg (by rw [hb]; exact Bool.false_ne_true)]]
        unfold jmax
        rw [if_neg (by rw [hc]; exact Bool.false_ne_true)]

/-! ## Claim theorems -/

/-- C1 (counterexample): the claim "normalizing the serialized result of a
normalization yields an equal state — no field drifts on repeated load/save
cycles" is false of the program as stated over *every* persisted input.  The
persisted text `{"log":[{"xpPotential":1e999}]}` parses to an entry whose
`xpPotential` is `Infinity`; the migration keeps it (`typeof Infinity ===
"number"`), `JSON.stringify` then writes it as `null`, and the next load
coerces that `null` to `0` — so the second load/save cycle changes the
entry's `xpPotential` from `Infinity` to `0`. -/
theorem C1_loadState_idem_counterexample :
    ¬ (loadState (.parsed (jsonRoundTrip (loadState (.parsed
        (Json.obj [("log", Json.arr [Json.obj [("xpPotential", Json.num .pinf)]])]))))) =
      loadState (.parsed
        (Json.obj [("log", Json.arr [Json.obj [("xpPotential", Json.num .pinf)]])]))) := by
  intro h
  exact absurd (congrArg (fun s =>
    match getMember s "log" with
    | some (.arr (e :: _)) =>
      (match getMember e "xpPotential" with
       | some (.num x) => some x
       | _ => none)
    | _ => none) h) (by decide)

/-- C1 (amended): the load-time normalization routine is idempotent across the
save/load round trip for every persisted input all of whose numbers are
finite: normalizing the re-parse of the serialized result of a normalization
yields an equal state, so no field of the state or of any log entry changes
on repeated load/save cycles.  (On such inputs the normalized state is again
all-finite, so `JSON.parse ∘ JSON.stringify` is the identity on it; the
unamended claim fails exactly on the non-finite numbers `JSON.parse` can
produce from overflow literals, which `JSON.stringify` writes as `null` —
see the counterexample.) -/
theorem C1_loadState_idempotent (r : RawInput) (hfin : rawFinite r = true) :
    loadState (.parsed (jsonRoundTrip (loadState r))) = loadState r := by
  rw [jsonRoundTrip_eq_self (loadState r) (loadState_finite r hfin)]
  cases r with
  | absent => exact (rfl : loadStateFromParsed DEFAULT_STATE = DEFAULT_STATE)
  | unparsable => exact (rfl : loadStateFromParsed DEFAULT_STATE = DEFAULT_STATE)
  | parsed p => exact loadStateFromParsed_idem p

/-- C1 witness: the amended idempotence at a concrete all-finite persisted
blob with a legacy log entry. -/
theorem C1_loadState_idempotent_witness :
    rawFinite (.parsed (Json.obj [("log",
      Json.arr [Json.obj [("xp", Json.num (.fin 12))]])])) = true ∧
    loadState (.parsed (jsonRoundTrip (loadState (.parsed (Json.obj [("log",
        Json.arr [Json.obj [("xp", Json.num (.fin 12))]])]))))) =
      loadState (.parsed (Json.obj [("log",
        Json.arr [Json.obj [("xp", Json.num (.fin 12))]])])) :=
  ⟨by decide,
   C1_loadState_idempotent (.parsed (Json.obj [("log",
     Json.arr [Json.obj [("xp", Json.num (.fin 12))]])])) (by decide)⟩

/-- C2: For every log entry of a parsed persisted blob, normalization applies
the legacy migration: (1) a plain-number legacy `xp` with no `xpPotential`
present is copied into `xpPotential`; (2) when no boolean `completed` flag is
present it defaults to `true`; (3) the legacy `xp` field is discarded
entirely; (4) `xpPotential` ends up numeric, (5) being kept when it was
already a number and (6) defaulting to `0` when nothing numeric was
available. -/
theorem C2_entry_migration (e : Json) :
    (∀ q : JNum, getF (spreadToObj e) "xp" = some (.num q) →
      getF (spreadToObj e) "xpPotential" = none →
      getF (normalizeEntryFields (spreadToObj e)) "xpPotential" = some (.num q)) ∧
    (isBoolOpt (getF (spreadToObj e) "completed") = false →
      getF (normalizeEntryFields (spreadToObj e)) "completed" = some (.bool true)) ∧
    getF (normalizeEntryFields (spreadToObj e)) "xp" = none ∧
    isNumOpt (getF (normalizeEntryFields (spreadToObj e)) "xpPotential") = true ∧
    (∀ q : JNum, getF (spreadToObj e) "xpPotential" = some (.num q) →
      getF (normalizeEntryFields (spreadToObj e)) "xpPotential" = some (.num q)) ∧
    (isNumOpt (getF (spreadToObj e) "xpPotential") = false →
      isNumOpt (getF (spreadToObj e) "xp") = false →
      getF (normalizeEntryFields (spreadToObj e)) "xpPotential" = some (.num (.fin 0))) := by
  refine ⟨?_, ?_, (normalizeEntryFields_facts _).2.2.1, (normalizeEntryFields_facts _).1,
    ?_, ?_⟩
  · intro q hxp hnone
    have h2 : getF (migrateXp (spreadToObj e)) "xpPotential" = some (.num q) := by
      rw [migrateXp_copy hxp hnone, getF_setF_same]
    have h3 : getF (delF (defaultCompleted (migrateXp (spreadToObj e))) "xp")
        "xpPotential" = some (.num q) := by
      rw [getF_delF_other _ _ _ (by decide), getF_defaultCompleted_other _ _ (by decide), h2]
    unfold normalizeEntryFields
    rw [getF_coalesceAll_other _ _ _ (by decide), coerceXp_eq_self (by rw [h3]; rfl), h3]
  · intro hb
    have hmb : isBoolOpt (getF (migrateXp (spreadToObj e)) "completed") = false := by
      rw [getF_migrateXp_other _ _ (by decide)]
      exact hb
    have h1 : getF (defaultCompleted (migrateXp (spreadToObj e))) "completed" =
        some (.bool true) := defaultCompleted_notBool hmb
    unfold normalizeEntryFields
    rw [getF_coalesceAll_other _ _ _ (by decide), getF_coerceXp_other _ _ (by decide),
      getF_delF_other _ _ _ (by decide), h1]
  · intro q hq
    have h3 : getF (delF (defaultCompleted (spreadToObj e)) "xp") "xpPotential" =
        some (.num q) := by
      rw [getF_delF_other _ _ _ (by decide), getF_defaultCompleted_other _ _ (by decide), hq]
    unfold normalizeEntryFields
    rw [migrateXp_eq_self (by rw [hq]; rfl)]
    rw [getF_coalesceAll_other _ _ _ (by decide), coerceXp_eq_self (by rw [h3]; rfl), h3]
  · intro hxnot hxpnot
    have h4 : isNumOpt (getF (delF (defaultCompleted (migrateXp (spreadToObj e))) "xp")
        "xpPotential") = false := by
      rw [migrateXp_notNum hxnot hxpnot, getF_delF_other _ _ _ (by decide),
        getF_defaultCompleted_other _ _ (by decide)]
      exact hxnot
    unfold normalizeEntryFields
    rw [getF_coalesceAll_other _ _ _ (by decide)]
    exact coerceXp_notNum h4

/-- C2 witness: the spec's concrete instance, an entry with legacy `xp = 12`
and no `completed`/`xpPotential` fields. -/
theorem C2_entry_migration_witness :
    getF (normalizeEntryFields (spreadToObj (Json.obj [("xp", Json.num (.fin 12))])))
      "xpPotential" = some (Json.num (.fin 12)) ∧
    getF (normalizeEntryFields (spreadToObj (Json.obj [("xp", Json.num (.fin 12))])))
      "completed" = some (Json.bool true) ∧
    getF (normalizeEntryFields (spreadToObj (Json.obj [("xp", Json.num (.fin 12))])))
      "xp" = none :=
  ⟨(C2_entry_migration (Json.obj [("xp", Json.num (.fin 12))])).1 (.fin 12) rfl rfl,
   (C2_entry_migration (Json.obj [("xp", Json.num (.fin 12))])).2.1 rfl,
   (C2_entry_migration (Json.obj [("xp", Json.num (.fin 12))])).2.2.1⟩

/-- C3: The state normalizer never throws — it is a total function of the raw
input by construction, with the `try`/`catch` fallback modelled by the
`absent`/`unparsable`/`null` arms — and whenever the input is absent or
unparsable as structured data (including the `null` blob, whose property
access throws inside the `try`), it returns a fresh copy of the built-in
default state: default baselines, default notes, empty log, default focus
label. -/
theorem C3_fallback_to_defaults :
    loadState .absent = DEFAULT_STATE ∧
    loadState .unparsable = DEFAULT_STATE ∧
    loadState (.parsed Json.null) = DEFAULT_STATE ∧
    getMember DEFAULT_STATE "baselines" = some (.obj defaultBaselines) ∧
    getMember DEFAULT_STATE "notes" = some (.obj defaultNotes) ∧
    getMember DEFAULT_STATE "todayFocus" = some (.str "—") ∧
    getMember DEFAULT_STATE "log" = some (.arr []) :=
  ⟨rfl, rfl, rfl, rfl, rfl, rfl, rfl⟩

/-- C4: For every state whose log entries carry a boolean `completed` flag (as
all reachable states do after normalization), the earned XP total equals the
sum of `xpPotential` (as the number `calcXP` reads, `Number(e.xpPotential)||0`)
over exactly those log entries with `completed == true`; and toggling any
single entry's `completed` flag changes the total by exactly that entry's
`xpPotential` (up when completing, down when un-completing). -/
theorem C4_earned_xp_total :
    (∀ log : List Json,
      (∀ e ∈ log, ∃ b, getMember e "completed" = some (.bool b)) →
      calcXP log =
        jsSum ((log.filter (fun e => isTrueOpt (getMember e "completed"))).map
          (fun e => jsNumOr0 (getMember e "xpPotential")))) ∧
    (∀ (pre post : List Json) (l : List (String × Json)) (id : String) (b : Bool) (q : ℚ),
      (∀ x ∈ pre, jsStrEq (getMember x "id") id = false) →
      jsStrEq (getMember (Json.obj l) "id") id = true →
      getF l "completed" = some (.bool b) →
      getF l "xpPotential" = some (.num (.fin q)) →
      calcXP (setCompleted (pre ++ Json.obj l :: post) id (!b)) =
        oAdd (calcXP (pre ++ Json.obj l :: post))
          (some (.fin (if b then -q else q)))) := by
  constructor
  · intro log hc
    induction log with
    | nil => rfl
    | cons e t ih =>
      obtain ⟨b, hb⟩ := hc e (List.mem_cons_self e t)
      have ih2 := ih (fun x hx => hc x (List.mem_cons_of_mem _ hx))
      rw [calcXP_cons, ih2, List.filter_cons]
      cases b with
      | true =>
        rw [if_pos (show isTrueOpt (getMember e "completed") = true by rw [hb]; rfl)]
        rw [show entryEarned e = jsNumOr0 (getMember e "xpPotential") by
          unfold entryEarned; rw [hb]; rfl]
        rw [List.map_cons, jsSum_cons]
      | false =>
        rw [if_neg (show ¬ isTrueOpt (getMember e "completed") = true by
          rw [hb]; exact Bool.noConfusion)]
        rw [show entryEarned e = JNum.fin 0 by unfold entryEarned; rw [hb]; rfl]
        rw [zero_oAdd]
  · intro pre post l id b q hpre hid hcomp hxp
    rw [setCompleted_append pre _ post id (!b) hpre hid]
    rw [calcXP_append, calcXP_append, calcXP_cons, calcXP_cons]
    cases b with
    | true =>
      rw [show entryEarned (jsSetEntry (.obj l) "completed" (.bool (!true))) = JNum.fin 0 by
        rw [entryEarned_setCompleted l (!true) (.fin q) hxp]; rfl]
      rw [show entryEarned (Json.obj l) = JNum.fin q by
        rw [entryEarned_obj l true (.fin q) hcomp hxp]; rfl]
      rw [show (if true then -q else q) = -q from rfl]
      rw [oAdd_toggle_down, zero_oAdd]
    | false =>
      rw [show entryEarned (jsSetEntry (.obj l) "completed" (.bool (!false))) = JNum.fin q by
        rw [entryEarned_setCompleted l (!false) (.fin q) hxp]; rfl]
      rw [show entryEarned (Json.obj l) = JNum.fin 0 by
        rw [entryEarned_obj l false (.fin q) hcomp hxp]; rfl]
      rw [show (if false then -q else q) = q from rfl]
      rw [zero_oAdd, oAdd_toggle_up]

/-- C4 witness: a one-entry log; un-completing has earned 0 with the entry
filtered in/out correctly, and completing it raises the total by its
`xpPotential` of 10. -/
theorem C4_earned_xp_total_witness :
    calcXP [Json.obj [("id", Json.str "a"), ("completed", Json.bool false),
        ("xpPotential", Json.num (.fin 10))]] =
      jsSum ((([Json.obj [("id", Json.str "a"), ("completed", Json.bool false),
          ("xpPotential", Json.num (.fin 10))]]).filter
        (fun e => isTrueOpt (getMember e "completed"))).map
        (fun e => jsNumOr0 (getMember e "xpPotential"))) ∧
    calcXP (setCompleted [Json.obj [("id", Json.str "a"), ("completed", Json.bool false),
        ("xpPotential", Json.num (.fin 10))]] "a" (!false)) =
      oAdd (calcXP [Json.obj [("id", Json.str "a"), ("completed", Json.bool false),
        ("xpPotential", Json.num (.fin 10))]])
        (some (.fin (if false then -(10 : ℚ) else 10))) :=
  ⟨C4_earned_xp_total.1 _ (by
      intro e he
      rw [List.mem_singleton] at he
      exact ⟨false, by subst he; rfl⟩),
   C4_earned_xp_total.2 [] [] [("id", Json.str "a"), ("completed", Json.bool false),
      ("xpPotential", Json.num (.fin 10))] "a" false 10
     (fun x hx => absurd hx (List.not_mem_nil x)) rfl rfl rfl⟩

/-- C5: the merge of a parsed blob with the defaults (lines 90–96): every
top-level field present in the defaults but absent in the input is filled from
the defaults; `baselines` and `notes` are merged key-by-key, input keys
overriding and default keys absent from the input preserved; and the merged
`log` is an array that equals the input's `log` exactly when that value is an
array, and is empty otherwise. -/
theorem C5_merge_with_defaults (pf : List (String × Json)) :
    (∀ k v, getF defaultFields k = some v → getF pf k = none →
      getF (mergeState (.obj pf)) k = some v) ∧
    (∀ bfs : List (String × Json), getF pf "baselines" = some (.obj bfs) →
      getF (mergeState (.obj pf)) "baselines" =
        some (.obj (mergeObj defaultBaselines bfs)) ∧
      (∀ k v, getF bfs k = some v → getF (mergeObj defaultBaselines bfs) k = some v) ∧
      (∀ k, getF bfs k = none →
        getF (mergeObj defaultBaselines bfs) k = getF defaultBaselines k)) ∧
    (∀ nfs : List (String × Json), getF pf "notes" = some (.obj nfs) →
      getF (mergeState (.obj pf)) "notes" = some (.obj (mergeObj defaultNotes nfs)) ∧
      (∀ k v, getF nfs k = some v → getF (mergeObj defaultNotes nfs) k = some v) ∧
      (∀ k, getF nfs k = none →
        getF (mergeObj defaultNotes nfs) k = getF defaultNotes k)) ∧
    (∀ xs, getF pf "log" = some (.arr xs) →
      getF (mergeState (.obj pf)) "log" = some (.arr xs)) ∧
    (isArrOpt (getF pf "log") = false →
      getF (mergeState (.obj pf)) "log" = some (.arr [])) := by
  refine ⟨?_, ?_, ?_, ?_, ?_⟩
  · intro k v hd hnone
    rw [show defaultFields = [("baselines", .obj defaultBaselines),
      ("notes", .obj defaultNotes), ("todayFocus", .str "—"),
      ("log", .arr [])] from rfl] at hd
    rw [getF_cons, getF_cons, getF_cons, getF_cons] at hd
    split_ifs at hd with h1 h2 h3 h4
    · subst h1
      rw [getF_mergeState_baselines,
        show getMember (Json.obj pf) "baselines" = getF pf "baselines" from rfl, hnone,
        show spreadOrEmpty none = [] from rfl, mergeObj_nil]
      exact hd
    · subst h2
      rw [getF_mergeState_notes,
        show getMember (Json.obj pf) "notes" = getF pf "notes" from rfl, hnone,
        show spreadOrEmpty none = [] from rfl, mergeObj_nil]
      exact hd
    · subst h3
      rw [getF_mergeState_other _ _ (by decide) (by decide) (by decide)]
      rw [getF_mergeObj_none (show getF (spreadToObj (Json.obj pf)) "todayFocus" = none
        from hnone)]
      exact hd
    · subst h4
      rw [getF_mergeState_log,
        show getMember (Json.obj pf) "log" = getF pf "log" from rfl, hnone]
      exact hd
    · cases hd
  · intro bfs hb
    refine ⟨?_, fun k v hv => getF_mergeObj_some hv, fun k hn => getF_mergeObj_none hn⟩
    rw [getF_mergeState_baselines,
      show getMember (Json.obj pf) "baselines" = getF pf "baselines" from rfl, hb]
    rfl
  · intro nfs hb
    refine ⟨?_, fun k v hv => getF_mergeObj_some hv, fun k hn => getF_mergeObj_none hn⟩
    rw [getF_mergeState_notes,
      show getMember (Json.obj pf) "notes" = getF pf "notes" from rfl, hb]
    rfl
  · intro xs hx
    rw [getF_mergeState_log,
      show getMember (Json.obj pf) "log" = getF pf "log" from rfl, hx]
  · intro hna
    rw [getF_mergeState_log,
      show getMember (Json.obj pf) "log" = getF pf "log" from rfl]
    cases hlog : getF pf "log" with
    | none => rfl
    | some v =>
      cases v
      case arr xs => rw [hlog] at hna; exact Bool.noConfusion hna
      all_goals rfl

/-- C5 witness: a blob overriding one baseline key, adding one new baseline
key, with no `todayFocus` and no `log`. -/
theorem C5_merge_with_defaults_witness :
    getF (mergeState (.obj [("baselines",
        Json.obj [("Vocabulary", Json.num (.fin 3)), ("X", Json.num (.fin 1))])])) "todayFocus" =
      some (Json.str "—") ∧
    getF (mergeState (.obj [("baselines",
        Json.obj [("Vocabulary", Json.num (.fin 3)), ("X", Json.num (.fin 1))])])) "baselines" =
      some (.obj (mergeObj defaultBaselines
        [("Vocabulary", Json.num (.fin 3)), ("X", Json.num (.fin 1))])) ∧
    getF (mergeObj defaultBaselines [("Vocabulary", Json.num (.fin 3)), ("X", Json.num (.fin 1))])
      "Vocabulary" = some (Json.num (.fin 3)) ∧
    getF (mergeObj defaultBaselines [("Vocabulary", Json.num (.fin 3)), ("X", Json.num (.fin 1))])
      "Quick Math" = getF defaultBaselines "Quick Math" ∧
    getF (mergeState (.obj [("baselines",
        Json.obj [("Vocabulary", Json.num (.fin 3)), ("X", Json.num (.fin 1))])])) "log" =
      some (Json.arr []) :=
  by
  have h := C5_merge_with_defaults
    [("baselines", Json.obj [("Vocabulary", Json.num (.fin 3)), ("X", Json.num (.fin 1))])]
  have hb := h.2.1 [("Vocabulary", Json.num (.fin 3)), ("X", Json.num (.fin 1))] rfl
  exact ⟨h.1 "todayFocus" (Json.str "—") rfl rfl, hb.1,
    hb.2.1 "Vocabulary" (Json.num (.fin 3)) rfl, hb.2.2 "Quick Math" rfl, h.2.2.2.2 rfl⟩

/-- C6: Every newly created log entry is created by `addLogEntry`, whose
entry literal has `completed == false` and the `xpPotential` passed by its
caller; the session kinds pass 10 (Daily Neural Roll), 18 (Tri-Skill Sprint),
25 (Full Circuit), and the re-test confirm handler creates its entry with 6
(the entry at the head of the resulting log still carries `xpPotential = 6`
after the handler fills its answer text and marks it complete). -/
theorem C6_new_entry_fields :
    (∀ (log : List Json) (id time title : String) (cats : List String) (xp : ℚ),
      addLogEntry log id time title cats xp = mkEntry id time title cats xp :: log ∧
      getMember (mkEntry id time title cats xp) "completed" = some (.bool false) ∧
      getMember (mkEntry id time title cats xp) "xpPotential" = some (.num (.fin xp))) ∧
    (∀ (baselines : List (String × Json)) (log : List Json) (count : ℕ)
        (rnd : RandSrc) (id time : String),
      (runSession baselines log "Daily Neural Roll" count rnd id time).2 =
        addLogEntry log id time "Daily Neural Roll"
          (pickRandom rnd (baselines.map Prod.fst) count) 10 ∧
      (runSession baselines log "Tri-Skill Sprint" count rnd id time).2 =
        addLogEntry log id time "Tri-Skill Sprint"
          (pickRandom rnd (baselines.map Prod.fst) count) 18 ∧
      (runSession baselines log "Full Circuit" count rnd id time).2 =
        addLogEntry log id time "Full Circuit"
          (pickRandom rnd (baselines.map Prod.fst) count) 25) ∧
    (∀ (bl nts : Json) (log : List Json) (cat txt : String) (ow : Bool)
        (id time : String) (v : JNum), jsStrToNum txt = some v →
      getMember (((quickRetestConfirm bl nts log cat txt ow id time).2.2).headD Json.null)
        "xpPotential" = some (.num (.fin 6)) ∧
      ((quickRetestConfirm bl nts log cat txt ow id time).2.2).tail = log) := by
  refine ⟨fun log id time title cats xp => ⟨rfl, rfl, rfl⟩,
    fun baselines log count rnd id time => ⟨rfl, rfl, rfl⟩, ?_⟩
  intro bl nts log cat txt ow id time v htxt
  unfold quickRetestConfirm
  rw [htxt]
  constructor
  · show getMember (jsSetEntry (jsSetEntry (mkEntry id time "Re-test" [cat] 6)
      "answerText" _) "completed" (.bool true)) "xpPotential" = some (.num (.fin 6))
    show getF (setF (setF _ "answerText" _) "completed" (.bool true)) "xpPotential" = _
    rw [getF_setF_other _ _ _ _ (by decide), getF_setF_other _ _ _ _ (by decide)]
    rfl
  · rfl

/-- C6 witness: a concrete daily-roll creation and a concrete re-test. -/
theorem C6_new_entry_fields_witness :
    getMember (mkEntry "i" "t" "Daily Neural Roll" ["Vocabulary"] 10) "completed" =
      some (Json.bool false) ∧
    (runSession [("Vocabulary", Json.num (.fin 8))] [] "Daily Neural Roll" 1 zeroRand "i" "t").2 =
      addLogEntry [] "i" "t" "Daily Neural Roll"
        (pickRandom zeroRand ["Vocabulary"] 1) 10 ∧
    getMember (((quickRetestConfirm (Json.obj [("Vocabulary", Json.num (.fin 8))]) (Json.obj [])
        [] "Vocabulary" "7" true "i" "t").2.2).headD Json.null) "xpPotential" =
      some (Json.num (.fin 6)) :=
  ⟨(C6_new_entry_fields.1 [] "i" "t" "Daily Neural Roll" ["Vocabulary"] 10).2.1,
   (C6_new_entry_fields.2.1 [("Vocabulary", Json.num (.fin 8))] [] 1 zeroRand "i" "t").1,
   (C6_new_entry_fields.2.2 (Json.obj [("Vocabulary", Json.num (.fin 8))]) (Json.obj [])
      [] "Vocabulary" "7" true "i" "t" (.fin 7) (by decide)).1⟩

/-- C7: A baseline edit batch is all-or-nothing: with an unparsable text the
edit is rejected and baselines untouched; with an object whose every value
coerces to a number (the acceptance test is `Number.isNaN`, so values that
coerce to a number include the strings `"Infinity"`, `"-Infinity"` and
JS-whitespace-padded numerals), the stored result replaces the baselines with
each score clamped into `[0, 10]` (a finite score even for `±Infinity`
inputs); with any value whose coercion is `NaN` the entire edit is rejected
with a reported error and the baseline set is exactly as before. -/
theorem C7_baseline_edit_all_or_nothing (bl : Json) (fs : List (String × Json)) :
    editBaselinesApply bl none = (bl, true) ∧
    (fs.all (fun p => (jsNumber p.2).isSome) = true →
      editBaselinesApply bl (some (.obj fs)) =
        (.obj (fs.map (fun p =>
          (p.1, Json.num (clamp ((jsNumber p.2).getD (.fin 0)) (.fin 0) (.fin 10))))),
          false) ∧
      ∀ p ∈ fs.map (fun p =>
          (p.1, Json.num (clamp ((jsNumber p.2).getD (.fin 0)) (.fin 0) (.fin 10)))),
        ∃ q : ℚ, p.2 = Json.num (.fin q) ∧ 0 ≤ q ∧ q ≤ 10) ∧
    (fs.all (fun p => (jsNumber p.2).isSome) = false →
      editBaselinesApply bl (some (.obj fs)) = (bl, true)) := by
  refine ⟨rfl, ?_, ?_⟩
  · intro h
    constructor
    · show (if (fs.all fun p => (jsNumber p.2).isSome) = true
          then (clampEntries (.obj fs), false) else (bl, true)) = _
      rw [if_pos h]
      rfl
    · intro p hp
      obtain ⟨q2, hq2, rfl⟩ := List.mem_map.mp hp
      obtain ⟨q3, hq3, h0, h10⟩ := clamp_bound ((jsNumber q2.2).getD (.fin 0))
      exact ⟨q3, congrArg Json.num hq3, h0, h10⟩
  · intro h
    show (if (fs.all fun p => (jsNumber p.2).isSome) = true
        then (clampEntries (.obj fs), false) else (bl, true)) = _
    rw [if_neg (by rw [h]; exact Bool.noConfusion)]

/-- C7 witness: an all-numeric batch — including an out-of-range value, the
string `"Infinity"` (`Number("Infinity")` is a number, so the batch is
accepted, the score clamping to 10) and a no-break-space-padded numeral —
and a batch with a genuinely non-numeric score, which is rejected whole. -/
theorem C7_baseline_edit_witness :
    editBaselinesApply (Json.obj [("Vocabulary", Json.num (.fin 8))]) none =
      (Json.obj [("Vocabulary", Json.num (.fin 8))], true) ∧
    editBaselinesApply (Json.obj [("Vocabulary", Json.num (.fin 8))])
        (some (.obj [("A", Json.str "5"), ("B", Json.num (.fin 20)),
          ("C", Json.str "Infinity"), ("D", Json.str "\u00A05")])) =
      (Json.obj [("A", Json.num (.fin 5)), ("B", Json.num (.fin 10)),
        ("C", Json.num (.fin 10)), ("D", Json.num (.fin 5))], false) ∧
    editBaselinesApply (Json.obj [("Vocabulary", Json.num (.fin 8))])
        (some (.obj [("A", Json.str "abc"), ("B", Json.num (.fin 2))])) =
      (Json.obj [("Vocabulary", Json.num (.fin 8))], true) :=
  ⟨(C7_baseline_edit_all_or_nothing (Json.obj [("Vocabulary", Json.num (.fin 8))]) []).1,
   (((C7_baseline_edit_all_or_nothing (Json.obj [("Vocabulary", Json.num (.fin 8))])
      [("A", Json.str "5"), ("B", Json.num (.fin 20)), ("C", Json.str "Infinity"),
        ("D", Json.str "\u00A05")]).2.1 (by decide)).1).trans (by rfl),
   (C7_baseline_edit_all_or_nothing (Json.obj [("Vocabulary", Json.num (.fin 8))])
      [("A", Json.str "abc"), ("B", Json.num (.fin 2))]).2.2 (by decide)⟩

/-- C8: For every duplicate-free list of skill names of size `n` and every
requested count `k`, the random draw returns exactly `min k n` elements —
so exactly `k` when `n ≥ k` — all distinct, all members of the original
list; and when `k ≥ n` it returns all `n` elements (a permutation of the
input), without error (the function is total). -/
theorem C8_pick_random {α : Type} (rnd : RandSrc) (arr : List α) (k : ℕ)
    (hnd : arr.Nodup) :
    (pickRandom rnd arr k).length = min k arr.length ∧
    (pickRandom rnd arr k).Nodup ∧
    (∀ x ∈ pickRandom rnd arr k, x ∈ arr) ∧
    (arr.length ≤ k → List.Perm (pickRandom rnd arr k) arr) :=
  pickRandom_spec rnd arr k hnd

/-- C8 witness: drawing 2 of 3 gives exactly 2; drawing 5 of 3 returns all
three elements. -/
theorem C8_pick_random_witness :
    (["a", "b", "c"] : List String).Nodup ∧
    (pickRandom zeroRand (["a", "b", "c"] : List String) 2).length =
      min 2 (["a", "b", "c"] : List String).length ∧
    List.Perm (pickRandom zeroRand (["a", "b", "c"] : List String) 5) ["a", "b", "c"] :=
  ⟨by decide,
   (C8_pick_random zeroRand ["a", "b", "c"] 2 (by decide)).1,
   (C8_pick_random zeroRand ["a", "b", "c"] 5 (by decide)).2.2.2 (by decide)⟩

/-- C9: Clipboard rendering omits empty metric/free-text fields: for an entry
with empty `mood`, `sleepHrs = "7.5"`, empty `difficulty` and empty `liked`,
the four metric slots of the rendered line list are exactly
`["", "Sleep: 7.5 hrs", "", ""]` — one metric line, and the empty ones are
removed entirely by the `filter(Boolean)` that builds the clipboard text. -/
theorem C9_clipboard_metric_lines (e : Json) (lines : List String)
    (hm : getMember e "mood" = some (.str ""))
    (hs : getMember e "sleepHrs" = some (.str "7.5"))
    (hd : getMember e "difficulty" = some (.str ""))
    (hl : getMember e "liked" = some (.str ""))
    (hlines : entryLineList e = some lines) :
    (lines.drop 5).take 4 = ["", "Sleep: 7.5 hrs", "", ""] ∧
    "Sleep: 7.5 hrs" ∈ lines.filter (fun l => l ≠ "") ∧
    entryToClipboardText e = some (joinSep "\n" (lines.filter (fun l => l ≠ ""))) := by
  have hct : entryToClipboardText e =
      some (joinSep "\n" (lines.filter (fun l => l ≠ ""))) := by
    unfold entryToClipboardText
    rw [hlines]
    rfl
  have hmain : (lines.drop 5).take 4 = ["", "Sleep: 7.5 hrs", "", ""] ∧
      "Sleep: 7.5 hrs" ∈ lines.filter (fun l => l ≠ "") := by
    unfold entryLineList at hlines
    cases hc : catsJoin (getMember e "categories") with
    | none => rw [hc] at hlines; cases hlines
    | some cats =>
      rw [hc] at hlines
      have hlines2 := Option.some.inj hlines
      subst hlines2
      have e1 : (if jsTruthyOpt (getMember e "mood")
          then "Mood: " ++ jsToStrOpt (getMember e "mood") else "") = "" := by
        rw [hm]; rfl
      have e2 : (if jsStrEq (getMember e "sleepHrs") "" then ""
          else "Sleep: " ++ jsToStrOpt (getMember e "sleepHrs") ++ " hrs") =
          "Sleep: 7.5 hrs" := by
        rw [hs]; rfl
      have e3 : (if jsTruthyOpt (getMember e "difficulty")
          then "Difficulty: " ++ jsToStrOpt (getMember e "difficulty") else "") = "" := by
        rw [hd]; rfl
      have e4 : (if jsTruthyOpt (getMember e "liked")
          then "Enjoyed: " ++ jsToStrOpt (getMember e "liked") else "") = "" := by
        rw [hl]; rfl
      constructor
      · show [if jsTruthyOpt (getMember e "mood")
            then "Mood: " ++ jsToStrOpt (getMember e "mood") else "",
          if jsStrEq (getMember e "sleepHrs") "" then ""
            else "Sleep: " ++ jsToStrOpt (getMember e "sleepHrs") ++ " hrs",
          if jsTruthyOpt (getMember e "difficulty")
            then "Difficulty: " ++ jsToStrOpt (getMember e "difficulty") else "",
          if jsTruthyOpt (getMember e "liked")
            then "Enjoyed: " ++ jsToStrOpt (getMember e "liked") else ""] = _
        rw [e1, e2, e3, e4]
      · rw [e2]
        refine List.mem_filter.mpr ⟨?_, by decide⟩
        simp
  exact ⟨hmain.1, hmain.2, hct⟩

/-- C9 witness: the spec's concrete entry. -/
theorem C9_clipboard_metric_lines_witness :
    entryLineList (Json.obj [("title", Json.str "T"), ("time", Json.str "now"),
        ("categories", Json.arr [Json.str "Vocabulary"]),
        ("completed", Json.bool true), ("xpPotential", Json.num (.fin 10)),
        ("mood", Json.str ""), ("sleepHrs", Json.str "7.5"),
        ("difficulty", Json.str ""), ("liked", Json.str ""),
        ("challengeText", Json.str ""), ("answerText", Json.str ""),
        ("insightText", Json.str "")]) =
      some ["T", "now", "Rolled: Vocabulary", "Completed: Yes", "XP: 10 / 10",
        "", "Sleep: 7.5 hrs", "", "", "", "", ""] ∧
    ((["T", "now", "Rolled: Vocabulary", "Completed: Yes", "XP: 10 / 10",
        "", "Sleep: 7.5 hrs", "", "", "", "", ""] : List String).drop 5).take 4 =
      ["", "Sleep: 7.5 hrs", "", ""] ∧
    "Sleep: 7.5 hrs" ∈ (["T", "now", "Rolled: Vocabulary", "Completed: Yes",
        "XP: 10 / 10", "", "Sleep: 7.5 hrs", "", "", "", "", ""] : List String).filter
      (fun l => l ≠ "") := by
  have h := C9_clipboard_metric_lines (Json.obj [("title", Json.str "T"),
    ("time", Json.str "now"), ("categories", Json.arr [Json.str "Vocabulary"]),
    ("completed", Json.bool true), ("xpPotential", Json.num (.fin 10)),
    ("mood", Json.str ""), ("sleepHrs", Json.str "7.5"),
    ("difficulty", Json.str ""), ("liked", Json.str ""),
    ("challengeText", Json.str ""), ("answerText", Json.str ""),
    ("insightText", Json.str "")])
    ["T", "now", "Rolled: Vocabulary", "Completed: Yes", "XP: 10 / 10",
      "", "Sleep: 7.5 hrs", "", "", "", "", ""] rfl rfl rfl rfl (by decide)
  exact ⟨by decide, h.1, h.2.1⟩

/-- C10: On confirming a re-test with a numeric score, the notes map is
unchanged; without the overwrite option every baseline is unchanged; with it,
the re-tested category's baseline becomes the entered value clamped to
`[0, 10]` and every other baseline key is unchanged. -/
theorem C10_retest_baseline_frame (bl nts : Json) (log : List Json) (cat txt : String)
    (ow : Bool) (id time : String) (v : JNum) (htxt : jsStrToNum txt = some v) :
    (quickRetestConfirm bl nts log cat txt ow id time).2.1 = nts ∧
    (ow = false → (quickRetestConfirm bl nts log cat txt ow id time).1 = bl) ∧
    (ow = true → ∀ l, bl = .obj l →
      (quickRetestConfirm bl nts log cat txt ow id time).1 =
        .obj (setF l cat (.num (clamp v (.fin 0) (.fin 10)))) ∧
      getF (setF l cat (.num (clamp v (.fin 0) (.fin 10)))) cat = some (.num (clamp v (.fin 0) (.fin 10))) ∧
      (∀ k, k ≠ cat → getF (setF l cat (.num (clamp v (.fin 0) (.fin 10)))) k = getF l k)) := by
  unfold quickRetestConfirm
  rw [htxt]
  refine ⟨rfl, ?_, ?_⟩
  · intro h
    subst h
    rfl
  · intro h l hbl
    subst h
    subst hbl
    exact ⟨rfl, getF_setF_same _ _ _, fun k hk => getF_setF_other _ _ _ _ hk⟩

/-- C10 witness: a concrete overwriting re-test and a concrete
non-overwriting one. -/
theorem C10_retest_baseline_frame_witness :
    (quickRetestConfirm (Json.obj [("Vocabulary", Json.num (.fin 8))]) (Json.obj [("Vocabulary", Json.str "n")])
        [] "Vocabulary" "7" true "i" "t").2.1 = Json.obj [("Vocabulary", Json.str "n")] ∧
    (quickRetestConfirm (Json.obj [("Vocabulary", Json.num (.fin 8))]) (Json.obj [("Vocabulary", Json.str "n")])
        [] "Vocabulary" "7" false "i" "t").1 = Json.obj [("Vocabulary", Json.num (.fin 8))] ∧
    (quickRetestConfirm (Json.obj [("Vocabulary", Json.num (.fin 8))]) (Json.obj [("Vocabulary", Json.str "n")])
        [] "Vocabulary" "7" true "i" "t").1 =
      .obj (setF [("Vocabulary", Json.num (.fin 8))] "Vocabulary" (.num (clamp (.fin 7) (.fin 0) (.fin 10)))) ∧
    getF (setF [("Vocabulary", Json.num (.fin 8))] "Vocabulary" (.num (clamp (.fin 7) (.fin 0) (.fin 10))))
      "Quick Math" = getF [("Vocabulary", Json.num (.fin 8))] "Quick Math" := by
  have h1 := C10_retest_baseline_frame (Json.obj [("Vocabulary", Json.num (.fin 8))])
    (Json.obj [("Vocabulary", Json.str "n")]) [] "Vocabulary" "7" true "i" "t" (.fin 7) (by decide)
  have h2 := C10_retest_baseline_frame (Json.obj [("Vocabulary", Json.num (.fin 8))])
    (Json.obj [("Vocabulary", Json.str "n")]) [] "Vocabulary" "7" false "i" "t" (.fin 7) (by decide)
  obtain ⟨ha, hb, hc⟩ := h1.2.2 rfl [("Vocabulary", Json.num (.fin 8))] rfl
  exact ⟨h1.1, h2.2.1 rfl, ha, hc "Quick Math" (by decide)⟩

end NF
